import Mathlib

/-!
Verification of the APFS extended-attribute module (xattr.c) against its
natural-language specification.  The on-disk byte layout, the record decoder,
the inline and extent-backed value readers, and the set/delete/list entry
points are shallowly embedded as executable Lean functions; the external
collaborators (the catalog b-tree, the block allocator and the transaction
engine) are modelled at the interface level described by the specification.
-/

namespace ApfsXattr

/-- Error codes used by the xattr code (negative errnos in C). -/
inductive Err where
  | ENOMEM
  | EFSCORRUPTED
  | ENODATA
  | EEXIST
  | ERANGE
  | E2BIG
  | EIOERR
  | ENOSPC
  deriving DecidableEq, Repr

/-- Decode a little-endian 16-bit quantity from its two bytes. -/
def le16_to_cpu (b0 b1 : Nat) : Nat := b0 + 256 * b1

/-- Encode a 16-bit quantity as two little-endian bytes. -/
def cpu_to_le16 (n : Nat) : List Nat := [n % 256, n / 256 % 256]

/-- Decode a little-endian 64-bit quantity from a list of bytes
(first byte least significant). -/
def le64_to_cpu (l : List Nat) : Nat := l.foldr (fun b acc => b + 256 * acc) 0

/-- Encode a 64-bit quantity as eight little-endian bytes. -/
def cpu_to_le64 (n : Nat) : List Nat :=
  [n % 256, n / 256 % 256, n / 256 ^ 2 % 256, n / 256 ^ 3 % 256,
    n / 256 ^ 4 % 256, n / 256 ^ 5 % 256, n / 256 ^ 6 % 256, n / 256 ^ 7 % 256]

/-- Reinterpret an unsigned 64-bit value as a C signed int (32-bit,
twos-complement form), as happens in the assignment length = dstream->ds_size. -/
def toInt32 (n : Nat) : Int :=
  if n % 2 ^ 32 < 2 ^ 31 then (n % 2 ^ 32 : Int) else (n % 2 ^ 32 : Int) - 2 ^ 32

/-- Flag bit marking a stream-backed xattr value (declared in apfs.h).
Modelled from the spec: the flags field carries the storage-variant tag. -/
def APFS_XATTR_DATA_STREAM : Nat := 1

/-- Flag bit marking an inline (embedded) xattr value (declared in apfs.h).
Modelled from the spec: the flags field carries the storage-variant tag. -/
def APFS_XATTR_DATA_EMBEDDED : Nat := 2

/-- Flag bit for filesystem-owned xattrs such as the symlink target
(declared in apfs.h).  Modelled from the spec. -/
def APFS_XATTR_FILE_SYSTEM_OWNED : Nat := 4

/-- Inline embedding threshold, in bytes (declared in apfs.h).
Modelled from the spec: values up to this size are stored inline,
larger values get a data stream. -/
def APFS_XATTR_MAX_EMBEDDED_SIZE : Nat := 3804

/-- Maximum xattr value size accepted by the VFS (linux/limits.h). -/
def XATTR_SIZE_MAX : Nat := 65536

/-- Record-type tag for xattr records in the catalog key header
(declared in apfs.h).  Modelled from the spec. -/
def APFS_TYPE_XATTR : Nat := 4

/-- Flag for create-only set operations (linux/xattr.h). -/
def XATTR_CREATE : Nat := 1

/-- Flag for replace-only set operations (linux/xattr.h). -/
def XATTR_REPLACE : Nat := 2

/-- Size in bytes of struct apfs_xattr_val: flags (u16) + xdata_len (u16). -/
def xattr_val_size : Nat := 4

/-- Size in bytes of struct apfs_xattr_key: key header (u64) + name_len (u16). -/
def xattr_key_size : Nat := 10

/-- Size in bytes of struct apfs_xattr_dstream.  Modelled from the spec:
streamRef is streamId (u64), size (u64), allocatedSize (u64) and
defaultCryptoId (u64); the struct itself is declared in apfs.h. -/
def xattr_dstream_size : Nat := 32

/-- Bytes of the fake external namespace marker prepended by list
(XATTR_MAC_OSX_PREFIX, the four characters o s x dot). -/
def xattr_mac_osx : List Nat := [111, 115, 120, 46]

/-- Bytes of the reserved symlink-target attribute name
(APFS_XATTR_NAME_SYMLINK, com.apple.fs.symlink). -/
def apfs_symlink_name : List Nat :=
  [99, 111, 109, 46, 97, 112, 112, 108, 101, 46, 102, 115, 46, 115, 121, 109, 108, 105, 110, 107]

/-- In-memory xattr record as filled in by apfs_xattr_from_query.  The name
field keeps the on-disk bytes including the trailing NUL, matching the C
code where the record points into the raw key. -/
structure Xattr where
  has_dstream : Bool
  name : List Nat
  name_len : Nat
  xdata : List Nat
  xdata_len : Nat
  deriving DecidableEq, Repr

/-- Read and sanity-check the xattr record found by a successful query
(apfs_xattr_from_query).  The inputs are the raw key bytes and raw value
bytes of the catalog entry; query-len minus the fixed header sizes gives
the payload and name lengths, exactly as in the C code. -/
def apfs_xattr_from_query (keyBytes valBytes : List Nat) : Except Err Xattr :=
  let datalen : Int := (valBytes.length : Int) - (xattr_val_size : Int)
  let namelen : Int := (keyBytes.length : Int) - (xattr_key_size : Int)
  if namelen < 1 ∨ datalen < 0 then .error .EFSCORRUPTED
  else if namelen ≠ (le16_to_cpu (keyBytes.getD 8 0) (keyBytes.getD 9 0) : Int) then
    .error .EFSCORRUPTED
  else if keyBytes.getD (xattr_key_size + (namelen.toNat - 1)) 1 ≠ 0 then
    .error .EFSCORRUPTED
  else
    let flags := le16_to_cpu (valBytes.getD 0 0) (valBytes.getD 1 0)
    let hasDstream : Bool := flags &&& APFS_XATTR_DATA_STREAM != 0
    if hasDstream ∧ datalen ≠ (xattr_dstream_size : Int) then .error .EFSCORRUPTED
    else if ¬hasDstream ∧
        datalen ≠ (le16_to_cpu (valBytes.getD 2 0) (valBytes.getD 3 0) : Int) then
      .error .EFSCORRUPTED
    else .ok {
      has_dstream := hasDstream
      name := keyBytes.drop xattr_key_size
      name_len := namelen.toNat - 1
      xdata := valBytes.drop xattr_val_size
      xdata_len := datalen.toNat }

/-- The corruption conditions exactly as the specification words them:
name length below one, declared name length disagreeing with the key bytes,
a missing NUL terminator, a stream record whose value size is not the fixed
reference size, or an inline record whose declared data length differs from
the actual payload length. -/
def xattrCorruptSpec (keyBytes valBytes : List Nat) : Prop :=
  let datalen : Int := (valBytes.length : Int) - (xattr_val_size : Int)
  let namelen : Int := (keyBytes.length : Int) - (xattr_key_size : Int)
  let flags := le16_to_cpu (valBytes.getD 0 0) (valBytes.getD 1 0)
  let hasDstream : Bool := flags &&& APFS_XATTR_DATA_STREAM != 0
  namelen < 1 ∨
  namelen ≠ (le16_to_cpu (keyBytes.getD 8 0) (keyBytes.getD 9 0) : Int) ∨
  keyBytes.getD (xattr_key_size + (namelen.toNat - 1)) 1 ≠ 0 ∨
  (hasDstream ∧ datalen ≠ (xattr_dstream_size : Int)) ∨
  (¬hasDstream ∧ datalen ≠ (le16_to_cpu (valBytes.getD 2 0) (valBytes.getD 3 0) : Int))

deriving instance DecidableEq for Except

/-- Data-stream info kept in memory (apfs_dstream_info): the stream id and the
logical size.  The extent cache and lock are collaborator internals and live
in the filesystem state instead. -/
structure DstreamInfo where
  ds_id : Nat
  ds_size : Nat
  deriving DecidableEq, Repr

/-- Get the dstream info for a dstream xattr (apfs_dstream_from_xattr):
xattr_obj_id is the first little-endian u64 of the payload and the declared
size the second. -/
def apfs_dstream_from_xattr (x : Xattr) : DstreamInfo :=
  { ds_id := le64_to_cpu (x.xdata.take 8)
    ds_size := le64_to_cpu ((x.xdata.drop 8).take 8) }

/-- One catalog entry holding an xattr record: the owner inode number and the
attribute name (the C-string bytes, without the NUL) identify the entry for
exact queries, and the raw on-disk key and value bytes are what decoding
sees.  The b-tree itself is an external collaborator; the catalog is modelled
as the ordered list of its entries. -/
structure Entry where
  ino : Nat
  name : List Nat
  rawKey : List Nat
  rawVal : List Nat
  deriving DecidableEq, Repr

/-- Filesystem state visible to the xattr code: the catalog entries, the
monotonic per-volume object-id counter, the block allocator watermark, the
per-stream logical-to-physical extent mapping (none meaning unmapped, which
reads treat as a hole), and the block device contents (none meaning an
unreadable block).  The block size is sb->s_blocksize. -/
structure FsState where
  catalog : List Entry
  nextObjId : Nat
  nextBno : Nat
  extents : Nat → Nat → Option Nat
  disk : Nat → Option (List Nat)
  bs : Nat

/-- Read the value of an inline xattr (apfs_xattr_inline_read).  The buffer
argument tells whether an output buffer was supplied; on success the result
carries the returned byte count and the bytes copied to the buffer. -/
def apfs_xattr_inline_read (x : Xattr) (buffer : Bool) (size : Nat)
    (only_whole : Bool) : Except Err (Nat × List Nat) :=
  let length := x.xdata_len
  if ¬buffer then .ok (length, [])
  else if only_whole ∧ length > size then .error .ERANGE
  else
    let length := if ¬only_whole ∧ length > size then size else length
    .ok (length, x.xdata.take length)

/-- Resolve and read blocks i, i+1, ... of a stream, cnt of them, mirroring
the block loop of apfs_xattr_extents_read: an unmapped logical block or a
physical block number of zero is a hole and fails as Corrupted, an unreadable
block fails as an I/O error. -/
def apfs_read_blocks (st : FsState) (dsId : Nat) : Nat → Nat → Except Err (List (List Nat))
  | _, 0 => .ok []
  | i, Nat.succ n =>
    match st.extents dsId i with
    | none => .error .EFSCORRUPTED
    | some bno =>
      if bno = 0 then .error .EFSCORRUPTED
      else
        match st.disk bno with
        | none => .error .EIOERR
        | some blk => (apfs_read_blocks st dsId (i + 1) n).map (fun rest => blk :: rest)

/-- Copy loop of apfs_xattr_extents_read: from each block copy
min(blocksize, remaining) bytes, the remaining count starting at the clamped
length and dropping by one block size per iteration. -/
def copy_blocks (bs : Nat) : Nat → List (List Nat) → List Nat
  | _, [] => []
  | len, blk :: rest => blk.take (min bs len) ++ copy_blocks bs (len - bs) rest

/-- Read the value of an xattr from its extents (apfs_xattr_extents_read).
The declared 64-bit size is first assigned to a C int; a negative or
truncated result fails as too large before any block is resolved.  On
success the result carries the returned byte count and the copied bytes. -/
def apfs_xattr_extents_read (st : FsState) (x : Xattr) (buffer : Bool) (size : Nat)
    (only_whole : Bool) : Except Err (Nat × List Nat) :=
  let dstream := apfs_dstream_from_xattr x
  let length : Int := toInt32 dstream.ds_size
  if length < 0 ∨ length < (dstream.ds_size : Int) then .error .E2BIG
  else
    let length : Nat := length.toNat
    if ¬buffer then .ok (length, [])
    else if only_whole ∧ length > size then .error .ERANGE
    else
      let length := if ¬only_whole ∧ length > size then size else length
      let blkcnt := (length + st.bs - 1) / st.bs
      match apfs_read_blocks st dstream.ds_id 0 blkcnt with
      | .error e => .error e
      | .ok blocks => .ok (length, copy_blocks st.bs length blocks)

/-- Dispatch of ____apfs_xattr_get on the storage variant of a decoded
record: stream-backed records are read from their extents, inline records
from the embedded payload. -/
def apfs_xattr_read (st : FsState) (x : Xattr) (buffer : Bool) (size : Nat)
    (only_whole : Bool) : Except Err (Nat × List Nat) :=
  if x.has_dstream then apfs_xattr_extents_read st x buffer size only_whole
  else apfs_xattr_inline_read x buffer size only_whole

/-- Logical length of the value of a record: the declared stream size for a
stream-backed record, the payload length for an inline one. -/
def xattr_value_length (x : Xattr) : Nat :=
  if x.has_dstream then (apfs_dstream_from_xattr x).ds_size else x.xdata_len

/-- Exact catalog query for one owner and name (apfs_btree_query with
APFS_QUERY_CAT and APFS_QUERY_EXACT on the key from apfs_init_xattr_key):
the first matching entry, if any. -/
def findXattr (catalog : List Entry) (ino : Nat) (name : List Nat) : Option Entry :=
  catalog.find? (fun e => e.ino == ino && e.name == name)

/-- Find and read a named attribute (____apfs_xattr_get): exact query,
decode, then dispatch to the inline or extent reader. -/
def ____apfs_xattr_get (st : FsState) (ino : Nat) (name : List Nat) (buffer : Bool)
    (size : Nat) (only_whole : Bool) : Except Err (Nat × List Nat) :=
  match findXattr st.catalog ino name with
  | none => .error .ENODATA
  | some e =>
    match apfs_xattr_from_query e.rawKey e.rawVal with
    | .error er => .error er
    | .ok x => apfs_xattr_read st x buffer size only_whole

/-- Find and read a named attribute, whole reads only (__apfs_xattr_get). -/
def __apfs_xattr_get (st : FsState) (ino : Nat) (name : List Nat) (buffer : Bool)
    (size : Nat) : Except Err (Nat × List Nat) :=
  ____apfs_xattr_get st ino name buffer size true

/-- The locked public get operation (apfs_xattr_get): a whole read under the
shared lock whose successful byte count is capped by XATTR_SIZE_MAX. -/
def apfs_xattr_get (st : FsState) (ino : Nat) (name : List Nat) (buffer : Bool)
    (size : Nat) : Except Err (Nat × List Nat) :=
  match __apfs_xattr_get st ino name buffer size with
  | .ok (n, w) => if n > XATTR_SIZE_MAX then .error .E2BIG else .ok (n, w)
  | .error e => .error e

/-- Failure points of the external collaborators during a mutation, one
switch per call site: block allocation, block read, transaction join, extent
cache flush and the catalog insert or replace. -/
structure Oracles where
  allocOk : Nat → Bool
  breadOk : Nat → Bool
  joinOk : Nat → Bool
  flushOk : Bool
  mutOk : Bool

/-- Block loop of apfs_create_xattr_dstream: for each chunk allocate a fresh
block, read and join it to the transaction, copy the chunk zero-padding the
tail, and accumulate the stream size.  Any failure returns at once with the
state as mutated so far. -/
def apfs_create_dstream_loop (orc : Oracles) (id : Nat) (value : List Nat) :
    Nat → Nat → Nat → FsState → (Except Err Nat) × FsState
  | 0, _, acc, st => (.ok acc, st)
  | Nat.succ n, i, acc, st =>
    if ¬ orc.allocOk i then (.error .ENOSPC, st)
    else
      let bno := st.nextBno
      let st1 : FsState := { st with
        nextBno := bno + 1
        extents := fun id2 i2 => if id2 = id ∧ i2 = i then some bno else st.extents id2 i2 }
      if ¬ orc.breadOk i then (.error .EIOERR, st1)
      else if ¬ orc.joinOk i then (.error .EIOERR, st1)
      else
        let off := i * st1.bs
        let tocopy := min st1.bs (value.length - off)
        let blk := (value.drop off).take tocopy ++ List.replicate (st1.bs - tocopy) 0
        let st2 : FsState :=
          { st1 with disk := fun b => if b = bno then some blk else st1.disk b }
        apfs_create_dstream_loop orc id value n (i + 1) (acc + tocopy) st2

/-- Create the extents for a dstream xattr (apfs_create_xattr_dstream):
take a fresh stream id from the volume counter, then write the value block
by block.  On failure only the in-memory dstream info is discarded; the
state as mutated so far is returned alongside the error. -/
def apfs_create_xattr_dstream (st : FsState) (value : List Nat) (orc : Oracles) :
    (Except Err DstreamInfo) × FsState :=
  let id := st.nextObjId
  let st1 : FsState := { st with nextObjId := id + 1 }
  let blkcnt := (value.length + st.bs - 1) / st.bs
  match apfs_create_dstream_loop orc id value blkcnt 0 0 st1 with
  | (.error e, st2) => (.error e, st2)
  | (.ok acc, st2) =>
    if ¬ orc.flushOk then (.error .EIOERR, st2) else (.ok ⟨id, acc⟩, st2)

/-- Build the raw on-disk key for an xattr record (apfs_build_xattr_key):
key header with the record-type tag, the name length counting the NUL, and
the NUL-terminated name. -/
def apfs_build_xattr_key (name : List Nat) (ino : Nat) : List Nat :=
  cpu_to_le64 (ino + APFS_TYPE_XATTR * 2 ^ 60) ++
    cpu_to_le16 (name.length + 1) ++ (name ++ [0])

/-- Allocated size of a stream (apfs_alloced_size): its size rounded up to
whole blocks. -/
def apfs_alloced_size (bs : Nat) (ds : DstreamInfo) : Nat :=
  ((ds.ds_size + bs - 1) / bs) * bs

/-- Build the value for a dstream xattr (apfs_build_dstream_xattr_val):
flags, fixed reference length, and the stream reference fields.  The volume
is modelled as unencrypted, so the crypto id stays zero. -/
def apfs_build_dstream_xattr_val (bs : Nat) (ds : DstreamInfo) : Nat × Nat × List Nat :=
  (APFS_XATTR_DATA_STREAM, xattr_dstream_size,
    cpu_to_le64 ds.ds_id ++ cpu_to_le64 ds.ds_size ++
      cpu_to_le64 (apfs_alloced_size bs ds) ++ cpu_to_le64 0)

/-- Build the value for an inline xattr (apfs_build_inline_xattr_val):
flags, declared data length and the payload itself. -/
def apfs_build_inline_xattr_val (value : List Nat) : Nat × Nat × List Nat :=
  (APFS_XATTR_DATA_EMBEDDED, value.length, value)

/-- Serialize a built (flags, declared length, payload) triple into the raw
value bytes stored in the catalog. -/
def serialize_xattr_val (v : Nat × Nat × List Nat) : List Nat :=
  cpu_to_le16 v.1 ++ cpu_to_le16 v.2.1 ++ v.2.2

/-- Truncate a stream to size zero (apfs_truncate with new size 0):
every block of the stream is released, so its logical blocks no longer
resolve. -/
def apfs_truncate_zero (st : FsState) (dsId : Nat) : FsState :=
  { st with extents := fun id i => if id = dsId then none else st.extents id i }

/-- Delete one xattr record found by a query (apfs_delete_xattr): decode it,
remove the catalog entry, and if it was stream-backed truncate the stream to
zero after the removal. -/
def apfs_delete_xattr (st : FsState) (e : Entry) : (Except Err Unit) × FsState :=
  match apfs_xattr_from_query e.rawKey e.rawVal with
  | .error er => (.error er, st)
  | .ok x =>
    let st1 : FsState := { st with
      catalog := st.catalog.eraseP (fun e2 => e2.ino == e.ino && e2.name == e.name) }
    (.ok (),
      if x.has_dstream then apfs_truncate_zero st1 (apfs_dstream_from_xattr x).ds_id
      else st1)

/-- Delete any single xattr of an inode (apfs_delete_any_xattr): an
any-name exact query; true plays the role of -EAGAIN (one record deleted,
call again), false means no records remain. -/
def apfs_delete_any_xattr (st : FsState) (ino : Nat) : (Except Err Bool) × FsState :=
  match st.catalog.find? (fun e => e.ino == ino) with
  | none => (.ok false, st)
  | some e =>
    let r := apfs_delete_xattr st e
    (r.1.map (fun _ => true), r.2)

/-- Delete all xattrs of an inode (apfs_delete_all_xattrs): repeat the
single deletion until it reports no more records or fails. -/
def apfs_delete_all_xattrs (st : FsState) (ino : Nat) : (Except Err Unit) × FsState :=
  match h : apfs_delete_any_xattr st ino with
  | (.error e, st1) => (.error e, st1)
  | (.ok false, st1) => (.ok (), st1)
  | (.ok true, st1) => apfs_delete_all_xattrs st1 ino
termination_by st.catalog.length
decreasing_by
  simp only [apfs_delete_any_xattr] at h
  rcases hf : st.catalog.find? (fun e => e.ino == ino) with _ | e
  · rw [hf] at h
    simp at h
  · rw [hf] at h
    have hmem : e ∈ st.catalog := List.mem_of_find?_eq_some hf
    simp only [apfs_delete_xattr] at h
    rcases hd : apfs_xattr_from_query e.rawKey e.rawVal with er | x
    · rw [hd] at h
      simp [Except.map] at h
    · rw [hd] at h
      have hlt : (st.catalog.eraseP
          (fun e2 => e2.ino == e.ino && e2.name == e.name)).length < st.catalog.length := by
        have hp : (fun e2 : Entry => e2.ino == e.ino && e2.name == e.name) e = true := by
          simp
        have := List.length_eraseP_add_one
          (p := fun e2 : Entry => e2.ino == e.ino && e2.name == e.name) hmem hp
        omega
      simp only [Prod.mk.injEq] at h
      rw [← h.2]
      split
      · simpa [apfs_truncate_zero] using hlt
      · exact hlt

/-- Replace the value of the catalog entry matched by an exact query
(apfs_btree_replace on the queried record). -/
def replaceXattr (catalog : List Entry) (ino : Nat) (name : List Nat)
    (new : Entry) : List Entry :=
  match catalog with
  | [] => []
  | e :: rest =>
    if e.ino == ino && e.name == name then new :: rest
    else e :: replaceXattr rest ino name new

/-- Tail of apfs_xattr_set after the query decision: build the raw key and
value (dstream reference or inline payload, with the filesystem-owned bit
for the reserved symlink name), insert or replace in the catalog, and only
after that mutation succeeds truncate the superseded old stream. -/
def apfs_xattr_set_commit (st : FsState) (ino : Nat) (name : List Nat)
    (value : Option (List Nat)) (dstream : Option DstreamInfo)
    (old : Option Nat) (found : Bool) (orc : Oracles) :
    (Except Err Unit) × FsState :=
  let rawKey := apfs_build_xattr_key name ino
  let v0 := match dstream with
    | some ds => apfs_build_dstream_xattr_val st.bs ds
    | none => apfs_build_inline_xattr_val (value.getD [])
  let v1 := if name = apfs_symlink_name then
      (v0.1 ||| APFS_XATTR_FILE_SYSTEM_OWNED, v0.2.1, v0.2.2)
    else v0
  let rawVal := serialize_xattr_val v1
  if ¬ orc.mutOk then (.error .EIOERR, st)
  else
    let newE : Entry := { ino := ino, name := name, rawKey := rawKey, rawVal := rawVal }
    let newCat := if found then replaceXattr st.catalog ino name newE
      else newE :: st.catalog
    let st2 : FsState := { st with catalog := newCat }
    match old with
    | some oid => (.ok (), apfs_truncate_zero st2 oid)
    | none => (.ok (), st2)

/-- Write a named attribute (apfs_xattr_set): large values first get a data
stream; then the exact query decides between the flag failures, the delete
branch for a null value, and insert or replace of the new record, with the
old stream remembered for cleanup. -/
def apfs_xattr_set (st : FsState) (ino : Nat) (name : List Nat)
    (value : Option (List Nat)) (flags : Nat) (orc : Oracles) :
    (Except Err Unit) × FsState :=
  let step1 : (Except Err (Option DstreamInfo)) × FsState :=
    match value with
    | some v =>
      if v.length > APFS_XATTR_MAX_EMBEDDED_SIZE then
        match apfs_create_xattr_dstream st v orc with
        | (.error e, st1) => (.error e, st1)
        | (.ok ds, st1) => (.ok (some ds), st1)
      else (.ok none, st)
    | none => (.ok none, st)
  match step1 with
  | (.error e, st1) => (.error e, st1)
  | (.ok dstream, st1) =>
    match findXattr st1.catalog ino name with
    | none =>
      if flags &&& XATTR_REPLACE ≠ 0 then (.error .ENODATA, st1)
      else apfs_xattr_set_commit st1 ino name value dstream none false orc
    | some e =>
      if flags &&& XATTR_CREATE ≠ 0 then (.error .EEXIST, st1)
      else match value with
        | none => apfs_delete_xattr st1 e
        | some _ =>
          match apfs_xattr_from_query e.rawKey e.rawVal with
          | .error er => (.error er, st1)
          | .ok x =>
            let old := if x.has_dstream then
                some (apfs_dstream_from_xattr x).ds_id
              else none
            apfs_xattr_set_commit st1 ino name value dstream old true orc

/-- Record loop of apfs_listxattr: decode each record of the owner in order;
with a buffer, check that the decorated name fits in the remaining free
space before writing it, failing the whole call otherwise; without a buffer
only account for the space.  The returned list holds the bytes this call and
its continuation write. -/
def apfs_listxattr_loop (entries : List Entry) (hasBuf : Bool) (free : Int) :
    (Except Err Int) × List Nat :=
  match entries with
  | [] => (.ok free, [])
  | e :: rest =>
    match apfs_xattr_from_query e.rawKey e.rawVal with
    | .error _ => (.error .EFSCORRUPTED, [])
    | .ok x =>
      if hasBuf ∧ ((x.name_len : Int) + (xattr_mac_osx.length : Int) + 1 > free) then
        (.error .ERANGE, [])
      else
        let r := apfs_listxattr_loop rest hasBuf
          (free - ((x.name_len : Int) + (xattr_mac_osx.length : Int) + 1))
        (r.1, (if hasBuf then xattr_mac_osx ++ x.name else []) ++ r.2)

/-- Convert the size_t difference size - free to the ssize_t return value of
apfs_listxattr: reduce modulo 2^64 and reinterpret as signed. -/
def ssize_of_size (n : Int) : Int :=
  let m := n.emod (2 ^ 64)
  if m < 2 ^ 63 then m else m - 2 ^ 64

/-- List the xattr names of an inode (apfs_listxattr): an any-name multiple
query walks all records of the owner in catalog order; the result is the
returned count or error together with the bytes written to the buffer. -/
def apfs_listxattr (st : FsState) (ino : Nat) (hasBuf : Bool) (size : Nat) :
    (Except Err Int) × List Nat :=
  let entries := st.catalog.filter (fun e => e.ino == ino)
  let r := apfs_listxattr_loop entries hasBuf (size : Int)
  (r.1.map (fun free => ssize_of_size ((size : Int) - free)), r.2)

/-- Concrete raw key bytes of a one-letter attribute name, used to evaluate
the theorems on explicit inputs. -/
def demoKey : List Nat := cpu_to_le64 0 ++ cpu_to_le16 2 ++ [97, 0]

/-- Concrete raw value bytes of a stream-backed record of size 3 with stream
id 7, used to evaluate the theorems on explicit inputs. -/
def demoStreamVal : List Nat :=
  cpu_to_le16 1 ++ cpu_to_le16 32 ++
    (cpu_to_le64 7 ++ cpu_to_le64 3 ++ cpu_to_le64 4 ++ cpu_to_le64 0)

/-- The decoded form of demoKey/demoStreamVal. -/
def demoStreamXattr : Xattr :=
  { has_dstream := true
    name := [97, 0]
    name_len := 1
    xdata := cpu_to_le64 7 ++ cpu_to_le64 3 ++ cpu_to_le64 4 ++ cpu_to_le64 0
    xdata_len := 32 }

/-- A concrete filesystem state in which stream 7 has two readable blocks of
size two, used to evaluate the theorems on explicit inputs. -/
def demoState : FsState :=
  { catalog := []
    nextObjId := 8
    nextBno := 12
    extents := fun id i =>
      if id = 7 ∧ i = 0 then some 10 else if id = 7 ∧ i = 1 then some 11 else none
    disk := fun bno =>
      if bno = 10 then some [1, 2] else if bno = 11 then some [3, 4] else none
    bs := 2 }

/-- Bytes apfs_listxattr appends for one decodable record: the external
namespace marker followed by the NUL-terminated name.  Undecodable records
contribute nothing because the call aborts on them. -/
def xattr_entry_bytes (e : Entry) : List Nat :=
  match apfs_xattr_from_query e.rawKey e.rawVal with
  | .ok x => xattr_mac_osx ++ x.name
  | .error _ => []

/-- Buffer space apfs_listxattr charges for one decodable record. -/
def xattr_entry_need (e : Entry) : Int :=
  match apfs_xattr_from_query e.rawKey e.rawVal with
  | .ok x => (x.name_len : Int) + (xattr_mac_osx.length : Int) + 1
  | .error _ => 0

/-- Oracles in which every collaborator call succeeds. -/
def demoOrc : Oracles :=
  { allocOk := fun _ => true
    breadOk := fun _ => true
    joinOk := fun _ => true
    flushOk := true
    mutOk := true }

/-- Oracles in which the second block allocation fails, used to drive the
create path into its failure branch on explicit inputs. -/
def demoFailOrc : Oracles :=
  { demoOrc with allocOk := fun i => i == 0 }

/-- An empty filesystem with block size four, used to evaluate the theorems
on explicit inputs. -/
def demoEmpty : FsState :=
  { catalog := []
    nextObjId := 7
    nextBno := 50
    extents := fun _ _ => none
    disk := fun _ => none
    bs := 4 }

/-- Raw value bytes of an inline record with payload of three bytes. -/
def demoInlineVal : List Nat := cpu_to_le16 2 ++ cpu_to_le16 3 ++ [1, 2, 3]

/-- A state holding one inline xattr (owner 1, name a, value three bytes),
used to evaluate the theorems on explicit inputs. -/
def demoInlineState : FsState :=
  { demoEmpty with
    catalog := [{ ino := 1, name := [97], rawKey := demoKey, rawVal := demoInlineVal }] }

/-- Raw value bytes of a stream record whose declared size 100000 exceeds
XATTR_SIZE_MAX. -/
def demoBigStreamVal : List Nat :=
  cpu_to_le16 1 ++ cpu_to_le16 32 ++
    (cpu_to_le64 9 ++ cpu_to_le64 100000 ++ cpu_to_le64 100352 ++ cpu_to_le64 0)

/-- A state holding one oversized stream xattr for owner 1, used to evaluate
the theorems on explicit inputs. -/
def demoBigState : FsState :=
  { demoEmpty with
    catalog := [{ ino := 1, name := [97], rawKey := demoKey, rawVal := demoBigStreamVal }] }

/-- Oracles in which the catalog mutation fails, used to drive the commit
into its failure branch on explicit inputs. -/
def demoMutFailOrc : Oracles := { demoOrc with mutOk := false }

/-- A state holding one stream-backed xattr (owner 1, name a, stream 7 with
two blocks), used to evaluate the theorems on explicit inputs. -/
def demoStreamState : FsState :=
  { demoState with
    catalog := [{ ino := 1, name := [97], rawKey := demoKey, rawVal := demoStreamVal }] }

/-- Concrete raw key bytes of a second one-letter attribute name. -/
def demoKey98 : List Nat := cpu_to_le64 0 ++ cpu_to_le16 2 ++ [98, 0]

/-- A state with two attributes of owner 1 (one inline, one stream-backed)
and one attribute of owner 2, used to evaluate the theorems on explicit
inputs. -/
def demoMultiState : FsState :=
  { demoState with
    catalog := [
      { ino := 1, name := [97], rawKey := demoKey, rawVal := demoInlineVal },
      { ino := 1, name := [98], rawKey := demoKey98, rawVal := demoStreamVal },
      { ino := 2, name := [97], rawKey := demoKey, rawVal := demoInlineVal }] }

/-- C4: decoding a raw xattr record fails with Corrupted exactly when the name
length is below one, the declared name-length field disagrees with the actual
key bytes, the name is not NUL-terminated, the stream flag is set but the
value size differs from the fixed stream-reference size, or the record is
inline but its declared data length differs from the actual payload length;
otherwise decoding succeeds. -/
theorem xattr_from_query_corrupt_iff (keyBytes valBytes : List Nat) :
    apfs_xattr_from_query keyBytes valBytes = .error Err.EFSCORRUPTED ↔
    xattrCorruptSpec keyBytes valBytes := by
  have hle16 : (0 : Int) ≤ (le16_to_cpu (valBytes.getD 2 0) (valBytes.getD 3 0) : Int) :=
    Int.natCast_nonneg _
  simp only [apfs_xattr_from_query, xattrCorruptSpec]
  split_ifs with h1 h2 h3 h4 h5
  · simp only [true_iff]
    rcases h1 with h1 | h1
    · exact Or.inl h1
    · by_cases hd : (le16_to_cpu (valBytes.getD 0 0) (valBytes.getD 1 0)
          &&& APFS_XATTR_DATA_STREAM != 0) = true
      · exact Or.inr (Or.inr (Or.inr (Or.inl ⟨hd, by omega⟩)))
      · exact Or.inr (Or.inr (Or.inr (Or.inr ⟨by simpa using hd, by omega⟩)))
  · simp only [true_iff]
    exact Or.inr (Or.inl h2)
  · simp only [true_iff]
    exact Or.inr (Or.inr (Or.inl h3))
  · simp only [true_iff]
    exact Or.inr (Or.inr (Or.inr (Or.inl h4)))
  · simp only [true_iff]
    exact Or.inr (Or.inr (Or.inr (Or.inr h5)))
  · simp only [reduceCtorEq, false_iff]
    push_neg at h1 h2 h3 ⊢
    exact ⟨h1.1, h2, h3, fun hd => by_contra fun hne => h4 ⟨hd, hne⟩,
      fun hd => by_contra fun hne => h5 ⟨hd, hne⟩⟩

/-- Reinterpreting a value below 2^31 as a C int is the identity. -/
theorem toInt32_of_lt {n : Nat} (h : n < 2 ^ 31) : toInt32 n = n := by
  unfold toInt32
  split <;> omega

/-- A successfully decoded record has a stored payload length that equals the actual
payload length, and the payload is the raw value minus the fixed header. -/
theorem xattr_from_query_xdata {kb vb : List Nat} {x : Xattr}
    (h : apfs_xattr_from_query kb vb = .ok x) :
    x.xdata_len = x.xdata.length ∧ x.xdata = vb.drop xattr_val_size := by
  simp only [apfs_xattr_from_query] at h
  split_ifs at h with h1 h2 h3 h4 h5 <;> try exact Except.noConfusion h
  cases h
  push_neg at h1
  refine ⟨?_, rfl⟩
  simp only [List.length_drop, xattr_val_size]
  omega

/-- If every logical block in the window resolves to a nonzero physical block
with readable content of one block size, the block loop succeeds and returns
that many full blocks. -/
theorem read_blocks_ok (st : FsState) (dsId : Nat) :
    ∀ (cnt i : Nat),
      (∀ j < cnt, ∃ bno blk, st.extents dsId (i + j) = some bno ∧ bno ≠ 0 ∧
        st.disk bno = some blk ∧ blk.length = st.bs) →
      ∃ blocks, apfs_read_blocks st dsId i cnt = .ok blocks ∧ blocks.length = cnt ∧
        ∀ blk ∈ blocks, blk.length = st.bs := by
  intro cnt
  induction cnt with
  | zero => exact fun i _ => ⟨[], rfl, rfl, by simp⟩
  | succ n ih =>
    intro i h
    have h0 := h 0 (Nat.succ_pos n)
    rw [Nat.add_zero] at h0
    obtain ⟨bno, blk, he, hb0, hd, hl⟩ := h0
    obtain ⟨blocks, hbl, hlen, hall⟩ := ih (i + 1) (fun j hj => by
      have := h (j + 1) (by omega)
      rwa [show i + (j + 1) = i + 1 + j by omega] at this)
    refine ⟨blk :: blocks, ?_, by simp [hlen], ?_⟩
    · simp only [apfs_read_blocks, he, hd, hbl, if_neg hb0, Except.map]
    · intro b hb
      rcases List.mem_cons.mp hb with rfl | hb
      · exact hl
      · exact hall b hb

/-- The copy loop transfers exactly the clamped length when handed full-sized
blocks covering it. -/
theorem copy_blocks_length {bs : Nat} (hbs : 0 < bs) :
    ∀ (blocks : List (List Nat)) (len : Nat),
      blocks.length = (len + bs - 1) / bs →
      (∀ blk ∈ blocks, blk.length = bs) →
      (copy_blocks bs len blocks).length = len := by
  intro blocks
  induction blocks with
  | nil =>
    intro len hcnt _
    simp only [List.length_nil] at hcnt
    have hz : len = 0 := by
      rcases Nat.eq_zero_or_pos len with h0 | hpos
      · exact h0
      · exfalso
        have h1 : 1 ≤ (len + bs - 1) / bs :=
          (Nat.one_le_div_iff hbs).mpr (by omega)
        omega
    simp [hz, copy_blocks]
  | cons b rest ih =>
    intro len hcnt hall
    have hb : b.length = bs := hall b (by simp)
    simp only [List.length_cons] at hcnt
    have hlen1 : 1 ≤ len := by
      rcases Nat.eq_zero_or_pos len with h0 | hpos
      · exfalso
        subst h0
        have hz : (0 + bs - 1) / bs = 0 := Nat.div_eq_of_lt (by omega)
        omega
      · exact hpos
    by_cases hle : len ≤ bs
    · have hone : (len + bs - 1) / bs = 1 :=
        Nat.div_eq_of_lt_le (by omega) (by omega)
      have hrest : rest = [] := by
        have : rest.length = 0 := by omega
        exact List.length_eq_zero.mp this
      subst hrest
      simp [copy_blocks, List.length_take, hb]
      omega
    · push_neg at hle
      have hcnt' : rest.length = (len - bs + bs - 1) / bs := by
        have hsum : len + bs - 1 = (len - bs + bs - 1) + bs := by omega
        rw [hsum, Nat.add_div_right _ hbs] at hcnt
        omega
      have hrec := ih (len - bs) hcnt' (fun blk hblk => hall blk (by simp [hblk]))
      simp [copy_blocks, List.length_take, hb, hrec]
      omega

/-- C9: when the declared 64-bit stream size does not survive conversion to
the signed C int length (the converted value is negative or smaller than the
declared size), the extent read fails as too large, for every buffer,
capacity, policy and filesystem state, hence before resolving any block or
copying any byte. -/
theorem extents_read_too_large (st : FsState) (x : Xattr) (buffer : Bool)
    (size : Nat) (only_whole : Bool)
    (h : toInt32 (apfs_dstream_from_xattr x).ds_size < 0 ∨
      toInt32 (apfs_dstream_from_xattr x).ds_size <
        ((apfs_dstream_from_xattr x).ds_size : Int)) :
    apfs_xattr_extents_read st x buffer size only_whole = .error .E2BIG := by
  unfold apfs_xattr_extents_read
  rw [if_pos h]

/-- Witness for C9 at a concrete record whose declared stream size is 2^31. -/
theorem extents_read_too_large_witness :
    apfs_xattr_extents_read demoState
      { demoStreamXattr with
        xdata := cpu_to_le64 7 ++ cpu_to_le64 (2 ^ 31) ++ cpu_to_le64 4 ++ cpu_to_le64 0 }
      true 10 true = .error .E2BIG :=
  extents_read_too_large demoState
    { demoStreamXattr with
      xdata := cpu_to_le64 7 ++ cpu_to_le64 (2 ^ 31) ++ cpu_to_le64 4 ++ cpu_to_le64 0 }
    true 10 true (by decide)

/-- Behaviour of the extent reader once the declared size is known to fit in
the signed length: the too-large guard passes and the read proceeds to the
capacity checks and the block loop. -/
theorem extents_read_reduce (st : FsState) (x : Xattr) (buffer : Bool) (size : Nat)
    (only_whole : Bool) (hds : (apfs_dstream_from_xattr x).ds_size < 2 ^ 31) :
    apfs_xattr_extents_read st x buffer size only_whole =
      if ¬buffer = true then .ok ((apfs_dstream_from_xattr x).ds_size, [])
      else if only_whole = true ∧ (apfs_dstream_from_xattr x).ds_size > size then
        .error .ERANGE
      else
        match apfs_read_blocks st (apfs_dstream_from_xattr x).ds_id 0
            (((if ¬only_whole = true ∧ (apfs_dstream_from_xattr x).ds_size > size then size
               else (apfs_dstream_from_xattr x).ds_size) + st.bs - 1) / st.bs) with
        | .error e => .error e
        | .ok blocks =>
          .ok ((if ¬only_whole = true ∧ (apfs_dstream_from_xattr x).ds_size > size then size
                else (apfs_dstream_from_xattr x).ds_size),
            copy_blocks st.bs
              (if ¬only_whole = true ∧ (apfs_dstream_from_xattr x).ds_size > size then size
               else (apfs_dstream_from_xattr x).ds_size) blocks) := by
  simp only [apfs_xattr_extents_read, toInt32_of_lt hds, Int.toNat_natCast]
  rw [if_neg (by omega)]

/-- C5: the value-read contract for every valid record, inline or stream
(blocks of a stream assumed resolvable and readable, per the no-holes
invariant): with no output buffer the read returns the logical length and
copies nothing; with a buffer under the whole-only policy a length above the
capacity fails as range-too-small; otherwise exactly min(length, capacity)
bytes are copied and that count is returned. -/
theorem xattr_read_contract (st : FsState) (kb vb : List Nat) (x : Xattr)
    (hx : apfs_xattr_from_query kb vb = .ok x)
    (size : Nat) (only_whole : Bool)
    (hbs : 0 < st.bs)
    (hsmall : x.has_dstream = true → (apfs_dstream_from_xattr x).ds_size < 2 ^ 31)
    (hblocks : x.has_dstream = true →
      ∀ i < (min (apfs_dstream_from_xattr x).ds_size size + st.bs - 1) / st.bs,
        ∃ bno blk, st.extents (apfs_dstream_from_xattr x).ds_id i = some bno ∧ bno ≠ 0 ∧
          st.disk bno = some blk ∧ blk.length = st.bs) :
    apfs_xattr_read st x false size only_whole = .ok (xattr_value_length x, []) ∧
    (only_whole = true → size < xattr_value_length x →
      apfs_xattr_read st x true size only_whole = .error .ERANGE) ∧
    (¬(only_whole = true ∧ size < xattr_value_length x) →
      ∃ w, apfs_xattr_read st x true size only_whole =
          .ok (min (xattr_value_length x) size, w) ∧
        w.length = min (xattr_value_length x) size) := by
  have hxd := xattr_from_query_xdata hx
  by_cases hd : x.has_dstream = true
  · have hds := hsmall hd
    have hlen : xattr_value_length x = (apfs_dstream_from_xattr x).ds_size := by
      simp [xattr_value_length, hd]
    refine ⟨?_, ?_, ?_⟩
    · rw [apfs_xattr_read, if_pos hd, extents_read_reduce st x false size only_whole hds,
        if_pos (by simp), hlen]
    · intro how hlt
      rw [hlen] at hlt
      rw [apfs_xattr_read, if_pos hd, extents_read_reduce st x true size only_whole hds,
        if_neg (by simp), if_pos ⟨how, hlt⟩]
    · intro hnot
      rw [hlen] at hnot
      have hclamp :
          (if ¬only_whole = true ∧ (apfs_dstream_from_xattr x).ds_size > size then size
           else (apfs_dstream_from_xattr x).ds_size) =
          min (apfs_dstream_from_xattr x).ds_size size := by
        by_cases how : only_whole = true
        · have hle : (apfs_dstream_from_xattr x).ds_size ≤ size := by
            by_contra hgt
            exact hnot ⟨how, by omega⟩
          rw [if_neg (fun hc => hc.1 how), Nat.min_eq_left hle]
        · by_cases hgt : (apfs_dstream_from_xattr x).ds_size > size
          · rw [if_pos ⟨how, hgt⟩]
            exact (Nat.min_eq_right (Nat.le_of_lt hgt)).symm
          · rw [if_neg (fun hc => hgt hc.2)]
            exact (Nat.min_eq_left (by omega)).symm
      obtain ⟨blocks, hbl, hcnt, hall⟩ :=
        read_blocks_ok st (apfs_dstream_from_xattr x).ds_id
          ((min (apfs_dstream_from_xattr x).ds_size size + st.bs - 1) / st.bs) 0
          (fun j hj => by rw [Nat.zero_add]; exact hblocks hd j hj)
      refine ⟨copy_blocks st.bs (min (apfs_dstream_from_xattr x).ds_size size) blocks,
        ?_, ?_⟩
      · rw [apfs_xattr_read, if_pos hd, extents_read_reduce st x true size only_whole hds,
          if_neg (by simp), if_neg hnot, hclamp, hlen]
        simp only [hbl]
      · rw [hlen]
        exact copy_blocks_length hbs blocks _ hcnt hall
  · have hdf : x.has_dstream = false := by simpa using hd
    have hlen : xattr_value_length x = x.xdata_len := by simp [xattr_value_length, hdf]
    refine ⟨?_, ?_, ?_⟩
    · rw [apfs_xattr_read, if_neg (by simp [hdf]), hlen]
      rfl
    · intro how hlt
      rw [hlen] at hlt
      rw [apfs_xattr_read, if_neg (by simp [hdf]), apfs_xattr_inline_read,
        if_neg (by simp), if_pos ⟨how, hlt⟩]
    · intro hnot
      rw [hlen] at hnot
      have hclamp :
          (if ¬only_whole = true ∧ x.xdata_len > size then size else x.xdata_len) =
          min x.xdata_len size := by
        by_cases how : only_whole = true
        · have hle : x.xdata_len ≤ size := by
            by_contra hgt
            exact hnot ⟨how, by omega⟩
          rw [if_neg (fun hc => hc.1 how), Nat.min_eq_left hle]
        · by_cases hgt : x.xdata_len > size
          · rw [if_pos ⟨how, hgt⟩]
            exact (Nat.min_eq_right (Nat.le_of_lt hgt)).symm
          · rw [if_neg (fun hc => hgt hc.2)]
            exact (Nat.min_eq_left (by omega)).symm
      refine ⟨x.xdata.take (min x.xdata_len size), ?_, ?_⟩
      · rw [apfs_xattr_read, if_neg (by simp [hdf]), apfs_xattr_inline_read,
          if_neg (by simp), if_neg hnot, hclamp, hlen]
      · rw [List.length_take, hxd.1]
        omega

/-- Witness for C5 on the concrete stream record of size 3 in demoState: a
length query returns 3 without copying, and a buffered whole read of
capacity 3 copies exactly 3 bytes. -/
theorem xattr_read_contract_witness :
    apfs_xattr_read demoState demoStreamXattr false 3 true = .ok (3, []) ∧
    ∃ w, apfs_xattr_read demoState demoStreamXattr true 3 true = .ok (3, w) ∧
      w.length = 3 := by
  have h := xattr_read_contract demoState demoKey demoStreamVal demoStreamXattr
    (by decide) 3 true (by decide) (fun _ => by decide)
    (fun _ => by
      intro i hi
      have hb : (min (apfs_dstream_from_xattr demoStreamXattr).ds_size 3 +
          demoState.bs - 1) / demoState.bs = 2 := by decide
      rw [hb] at hi
      interval_cases i
      · exact ⟨10, [1, 2], by decide, by decide, by decide, by decide⟩
      · exact ⟨11, [3, 4], by decide, by decide, by decide, by decide⟩)
  have hv : xattr_value_length demoStreamXattr = 3 := by decide
  rw [hv] at h
  exact ⟨h.1, by simpa using h.2.2 (by simp)⟩

/-- C10: the locked get operation converts any successful byte count above
XATTR_SIZE_MAX into the too-large error, and never returns a success count
above XATTR_SIZE_MAX, including for pure length queries. -/
theorem xattr_get_size_cap (st : FsState) (ino : Nat) (name : List Nat)
    (buffer : Bool) (size : Nat) :
    (∀ n w, __apfs_xattr_get st ino name buffer size = .ok (n, w) →
      XATTR_SIZE_MAX < n → apfs_xattr_get st ino name buffer size = .error .E2BIG) ∧
    (∀ n w, apfs_xattr_get st ino name buffer size = .ok (n, w) → n ≤ XATTR_SIZE_MAX) := by
  constructor
  · intro n w h hgt
    simp only [apfs_xattr_get, h]
    rw [if_pos hgt]
  · intro n w h
    by_contra hgt
    push_neg at hgt
    rcases hg : __apfs_xattr_get st ino name buffer size with e | ⟨m, wm⟩ <;>
      simp only [apfs_xattr_get, hg] at h
    · exact Except.noConfusion h
    · by_cases hc : m > XATTR_SIZE_MAX
      · rw [if_pos hc] at h
        exact Except.noConfusion h
      · rw [if_neg hc] at h
        simp only [Except.ok.injEq, Prod.mk.injEq] at h
        obtain ⟨h1, h2⟩ := h
        omega

/-- Witness for C10: on a record whose declared stream length is 100000 a
pure length query is converted to the too-large error, and a small inline
get returns a count below the cap. -/
theorem xattr_get_size_cap_witness :
    apfs_xattr_get demoBigState 1 [97] false 0 = .error .E2BIG ∧ 3 ≤ XATTR_SIZE_MAX :=
  ⟨(xattr_get_size_cap demoBigState 1 [97] false 0).1 100000 [] (by decide) (by decide),
    (xattr_get_size_cap demoInlineState 1 [97] true 3).2 3 [1, 2, 3] (by decide)⟩

/-- Monotonicity of the create block loop on the extent map: no mapping
present when the loop starts, or added by it, is ever removed, whichever way
the loop exits. -/
theorem create_dstream_loop_no_free (orc : Oracles) (id : Nat) (value : List Nat) :
    ∀ (n i acc : Nat) (st : FsState) (id2 i2 : Nat),
      st.extents id2 i2 ≠ none →
      (apfs_create_dstream_loop orc id value n i acc st).2.extents id2 i2 ≠ none := by
  intro n
  induction n with
  | zero => intro i acc st id2 i2 h; exact h
  | succ n ih =>
    intro i acc st id2 i2 h
    simp only [apfs_create_dstream_loop]
    by_cases h1 : orc.allocOk i = true
    · rw [if_neg (fun hc => hc h1)]
      by_cases h2 : orc.breadOk i = true
      · rw [if_neg (fun hc => hc h2)]
        by_cases h3 : orc.joinOk i = true
        · rw [if_neg (fun hc => hc h3)]
          apply ih
          dsimp only
          split_ifs with hc
          · simp
          · exact h
        · rw [if_pos h3]
          dsimp only
          split_ifs with hc
          · simp
          · exact h
      · rw [if_pos h2]
        dsimp only
        split_ifs with hc
        · simp
        · exact h
    · rw [if_pos h1]
      exact h

/-- C2 counterexample: it is not the case that a mid-way failure of
apfs_create_xattr_dstream frees every block allocated so far.  On a two
block value whose second allocation fails, the error is returned while the
first block remains allocated to the new stream. -/
theorem create_xattr_dstream_cleanup_refuted :
    ¬ (∀ (st : FsState) (value : List Nat) (orc : Oracles),
        (∃ e, (apfs_create_xattr_dstream st value orc).1 = .error e) →
        ∀ i, (apfs_create_xattr_dstream st value orc).2.extents st.nextObjId i = none) := by
  intro hclaim
  have h := hclaim demoEmpty (List.replicate 5 1) demoFailOrc ⟨.ENOSPC, by decide⟩ 0
  exact absurd h (by decide)

/-- C2 amended: a failure part-way through apfs_create_xattr_dstream returns
the error so the caller never receives a half-built stream handle, but the
function frees no blocks: every extent mapping present before the call or
created by it survives, and reclamation is left to the caller aborting the
transaction. -/
theorem create_xattr_dstream_no_free (st : FsState) (value : List Nat)
    (orc : Oracles) (id2 i2 : Nat)
    (h : st.extents id2 i2 ≠ none) :
    (apfs_create_xattr_dstream st value orc).2.extents id2 i2 ≠ none := by
  have hl := create_dstream_loop_no_free orc st.nextObjId value
    ((value.length + st.bs - 1) / st.bs) 0 0
    { st with nextObjId := st.nextObjId + 1 } id2 i2 h
  simp only [apfs_create_xattr_dstream]
  rcases hr : apfs_create_dstream_loop orc st.nextObjId value
      ((value.length + st.bs - 1) / st.bs) 0 0
      { st with nextObjId := st.nextObjId + 1 } with ⟨r, st2⟩
  rw [hr] at hl
  rcases r with e | acc
  · exact hl
  · simp only
    split_ifs with hc
    · exact hl
    · exact hl

/-- Witness for C2 amended: with the failing allocation oracle the create
fails but the pre-existing block mapping of stream 7 survives. -/
theorem create_xattr_dstream_no_free_witness :
    (apfs_create_xattr_dstream demoState [1] demoFailOrc).2.extents 7 0 ≠ none :=
  create_xattr_dstream_no_free demoState [1] demoFailOrc 7 0 (by decide)

/-- Full characterization of the buffered list loop: the bytes written are
the concatenation of the whole decorated entries of some first k records; a
range failure happens exactly at record k, which decodes but does not fit in
the remaining space, with none of its bytes written; success means all
records were consumed; a corruption failure points at an undecodable record
k. -/
theorem listxattr_loop_characterize (entries : List Entry) :
    ∀ free : Int,
      ∃ k, k ≤ entries.length ∧
        (apfs_listxattr_loop entries true free).2 =
          ((entries.take k).map xattr_entry_bytes).flatten ∧
        ((apfs_listxattr_loop entries true free).1 = .error .ERANGE →
          ∃ e x, entries.get? k = some e ∧
            apfs_xattr_from_query e.rawKey e.rawVal = .ok x ∧
            free - ((entries.take k).map xattr_entry_need).sum <
              (x.name_len : Int) + (xattr_mac_osx.length : Int) + 1) ∧
        (∀ r, (apfs_listxattr_loop entries true free).1 = .ok r → k = entries.length) ∧
        ((apfs_listxattr_loop entries true free).1 = .error .EFSCORRUPTED →
          ∃ e, entries.get? k = some e ∧
            ∀ x, apfs_xattr_from_query e.rawKey e.rawVal ≠ .ok x) := by
  induction entries with
  | nil =>
    intro free
    refine ⟨0, by simp, by simp [apfs_listxattr_loop], ?_, ?_, ?_⟩
    · intro hr
      exact absurd hr (by simp [apfs_listxattr_loop])
    · intro r _
      simp
    · intro hr
      exact absurd hr (by simp [apfs_listxattr_loop])
  | cons e rest ih =>
    intro free
    rcases hd : apfs_xattr_from_query e.rawKey e.rawVal with er | x
    · have hloop : apfs_listxattr_loop (e :: rest) true free = (.error .EFSCORRUPTED, []) := by
        simp [apfs_listxattr_loop, hd]
      refine ⟨0, by simp, by simp [hloop], ?_, ?_, ?_⟩
      · intro hr
        rw [hloop] at hr
        simp at hr
      · intro r hr
        rw [hloop] at hr
        simp at hr
      · intro _
        exact ⟨e, rfl, fun x hx => by rw [hd] at hx; exact Except.noConfusion hx⟩
    · by_cases hc : (x.name_len : Int) + (xattr_mac_osx.length : Int) + 1 > free
      · have hloop : apfs_listxattr_loop (e :: rest) true free = (.error .ERANGE, []) := by
          simp only [apfs_listxattr_loop, hd]
          rw [if_pos ⟨trivial, hc⟩]
        refine ⟨0, by simp, by simp [hloop], ?_, ?_, ?_⟩
        · intro _
          exact ⟨e, x, rfl, hd, by simpa using hc⟩
        · intro r hr
          rw [hloop] at hr
          simp at hr
        · intro hr
          rw [hloop] at hr
          simp at hr
      · obtain ⟨k, hk, hbytes, herange, hok, hcorr⟩ :=
          ih (free - ((x.name_len : Int) + (xattr_mac_osx.length : Int) + 1))
        have hloop : apfs_listxattr_loop (e :: rest) true free =
            ((apfs_listxattr_loop rest true
                (free - ((x.name_len : Int) + (xattr_mac_osx.length : Int) + 1))).1,
              (xattr_mac_osx ++ x.name) ++
                (apfs_listxattr_loop rest true
                  (free - ((x.name_len : Int) + (xattr_mac_osx.length : Int) + 1))).2) := by
          simp only [apfs_listxattr_loop, hd]
          rw [if_neg (fun hcc => hc hcc.2)]
          simp
        have hneed : xattr_entry_need e =
            (x.name_len : Int) + (xattr_mac_osx.length : Int) + 1 := by
          simp [xattr_entry_need, hd]
        refine ⟨k + 1, by simpa using Nat.succ_le_succ hk, ?_, ?_, ?_, ?_⟩
        · rw [hloop]
          simp only [List.take_succ_cons, List.map_cons, List.flatten_cons]
          rw [hbytes]
          simp [xattr_entry_bytes, hd]
        · intro hr
          rw [hloop] at hr
          obtain ⟨e2, x2, hget, hdx, hlt⟩ := herange hr
          refine ⟨e2, x2, by simpa using hget, hdx, ?_⟩
          simp only [List.take_succ_cons, List.map_cons, List.sum_cons, hneed]
          linarith
        · intro r hr
          rw [hloop] at hr
          simp [hok r hr]
        · intro hr
          rw [hloop] at hr
          obtain ⟨e2, hget, hne⟩ := hcorr hr
          exact ⟨e2, by simpa using hget, hne⟩

/-- C7: the buffered list call never writes a partial entry.  The bytes it
produces are always the whole decorated entries of the first k records for
some k; when it fails with range-too-small, record k decodes to a name whose
decorated size exceeds the remaining capacity and none of its bytes were
written; and on success every record of the owner was consumed. -/
theorem apfs_listxattr_whole_entries (st : FsState) (ino size : Nat) :
    ∃ k, k ≤ (st.catalog.filter (fun e => e.ino == ino)).length ∧
      (apfs_listxattr st ino true size).2 =
        (((st.catalog.filter (fun e => e.ino == ino)).take k).map xattr_entry_bytes).flatten ∧
      ((apfs_listxattr st ino true size).1 = .error .ERANGE →
        ∃ e x, (st.catalog.filter (fun e => e.ino == ino)).get? k = some e ∧
          apfs_xattr_from_query e.rawKey e.rawVal = .ok x ∧
          (size : Int) -
              (((st.catalog.filter (fun e => e.ino == ino)).take k).map xattr_entry_need).sum <
            (x.name_len : Int) + (xattr_mac_osx.length : Int) + 1) ∧
      (∀ r, (apfs_listxattr st ino true size).1 = .ok r →
        k = (st.catalog.filter (fun e => e.ino == ino)).length) := by
  obtain ⟨k, hk, hbytes, herange, hok, _⟩ :=
    listxattr_loop_characterize (st.catalog.filter (fun e => e.ino == ino)) (size : Int)
  have h1 : (apfs_listxattr st ino true size).1 =
      (apfs_listxattr_loop (st.catalog.filter (fun e => e.ino == ino)) true
        (size : Int)).1.map (fun free => ssize_of_size ((size : Int) - free)) := rfl
  have h2 : (apfs_listxattr st ino true size).2 =
      (apfs_listxattr_loop (st.catalog.filter (fun e => e.ino == ino)) true
        (size : Int)).2 := rfl
  refine ⟨k, hk, by rw [h2]; exact hbytes, ?_, ?_⟩
  · intro hr
    rw [h1] at hr
    rcases hq : (apfs_listxattr_loop (st.catalog.filter (fun e => e.ino == ino)) true
        (size : Int)).1 with er | v
    · rw [hq] at hr
      simp only [Except.map] at hr
      cases hr
      exact herange hq
    · rw [hq] at hr
      simp [Except.map] at hr
  · intro r hr
    rw [h1] at hr
    rcases hq : (apfs_listxattr_loop (st.catalog.filter (fun e => e.ino == ino)) true
        (size : Int)).1 with er | v
    · rw [hq] at hr
      simp [Except.map] at hr
    · exact hok v hq

/-- Decoding a freshly built inline record succeeds and recovers the name
and payload, for any flags word without the stream bit. -/
theorem decode_built_inline (ino : Nat) (name v : List Nat) (f : Nat)
    (hf1 : f &&& APFS_XATTR_DATA_STREAM = 0) (hf : f < 2 ^ 16)
    (hname : name.length + 1 < 2 ^ 16) (hv : v.length < 2 ^ 16) :
    apfs_xattr_from_query (apfs_build_xattr_key name ino)
      (serialize_xattr_val (f, v.length, v)) =
    .ok { has_dstream := false, name := name ++ [0], name_len := name.length,
          xdata := v, xdata_len := v.length } := by
  have hkshape : apfs_build_xattr_key name ino =
      (cpu_to_le64 (ino + APFS_TYPE_XATTR * 2 ^ 60) ++ cpu_to_le16 (name.length + 1)) ++
        (name ++ [0]) := by
    simp [apfs_build_xattr_key]
  have hklen : (apfs_build_xattr_key name ino).length = name.length + 11 := by
    simp [apfs_build_xattr_key, cpu_to_le64, cpu_to_le16]
  have hvlen : (serialize_xattr_val (f, v.length, v)).length = v.length + 4 := by
    simp [serialize_xattr_val, cpu_to_le16]
  have h8 : (apfs_build_xattr_key name ino).getD 8 0 = (name.length + 1) % 256 := by
    simp [apfs_build_xattr_key, cpu_to_le64, cpu_to_le16,
      List.getD_cons_succ, List.getD_cons_zero]
  have h9 : (apfs_build_xattr_key name ino).getD 9 0 = (name.length + 1) / 256 % 256 := by
    simp [apfs_build_xattr_key, cpu_to_le64, cpu_to_le16,
      List.getD_cons_succ, List.getD_cons_zero]
  have hnul : (apfs_build_xattr_key name ino).getD (10 + name.length) 1 = 0 := by
    rw [hkshape]
    rw [List.getD_append_right _ _ _ _ (by simp [cpu_to_le64, cpu_to_le16])]
    have hA : (cpu_to_le64 (ino + APFS_TYPE_XATTR * 2 ^ 60) ++
        cpu_to_le16 (name.length + 1)).length = 10 := by
      simp [cpu_to_le64, cpu_to_le16]
    rw [hA]
    rw [List.getD_append_right _ _ _ _ (by omega)]
    simp
  have hv0 : (serialize_xattr_val (f, v.length, v)).getD 0 0 = f % 256 := by
    simp [serialize_xattr_val, cpu_to_le16, List.getD_cons_zero]
  have hv1 : (serialize_xattr_val (f, v.length, v)).getD 1 0 = f / 256 % 256 := by
    simp [serialize_xattr_val, cpu_to_le16, List.getD_cons_succ, List.getD_cons_zero]
  have hv2 : (serialize_xattr_val (f, v.length, v)).getD 2 0 = v.length % 256 := by
    simp [serialize_xattr_val, cpu_to_le16, List.getD_cons_succ, List.getD_cons_zero]
  have hv3 : (serialize_xattr_val (f, v.length, v)).getD 3 0 = v.length / 256 % 256 := by
    simp [serialize_xattr_val, cpu_to_le16, List.getD_cons_succ, List.getD_cons_zero]
  have hdropk : (apfs_build_xattr_key name ino).drop 10 = name ++ [0] := by
    simp [apfs_build_xattr_key, cpu_to_le64, cpu_to_le16]
  have hdropv : (serialize_xattr_val (f, v.length, v)).drop 4 = v := by
    simp [serialize_xattr_val, cpu_to_le16]
  have hle16name : le16_to_cpu ((name.length + 1) % 256) ((name.length + 1) / 256 % 256) =
      name.length + 1 := by
    simp only [le16_to_cpu]
    omega
  have hle16f : le16_to_cpu (f % 256) (f / 256 % 256) = f := by
    simp only [le16_to_cpu]
    omega
  have hle16v : le16_to_cpu (v.length % 256) (v.length / 256 % 256) = v.length := by
    simp only [le16_to_cpu]
    omega
  have hstream : (f &&& APFS_XATTR_DATA_STREAM != 0) = false := by
    simp [hf1]
  simp only [apfs_xattr_from_query, xattr_key_size, xattr_val_size, hklen, hvlen,
    h8, h9, hv0, hv1, hv2, hv3, hle16name, hle16f, hle16v, hdropk, hdropv]
  rw [if_neg (by push_cast; omega)]
  rw [if_neg (by push_cast; omega)]
  rw [if_neg (by
    have hidx : ((((name.length + 11 : Nat) : Int) - ((10 : Nat) : Int)).toNat - 1) =
        name.length := by
      omega
    rw [hidx]
    exact not_not_intro hnul)]
  rw [if_neg (by
    intro hcc
    rw [hstream] at hcc
    simp at hcc)]
  rw [if_neg (by
    intro hcc
    have := hcc.2
    push_cast at this
    omega)]
  rw [hstream]
  simp only [Except.ok.injEq, Xattr.mk.injEq, and_true, true_and, eq_self_iff_true]
  omega

/-- After replacing the matched entry, an exact query for the same owner and
name finds the replacement. -/
theorem findXattr_replace (cat : List Entry) (ino : Nat) (name : List Nat)
    (newE e0 : Entry) (hfind : findXattr cat ino name = some e0)
    (hino : newE.ino = ino) (hname : newE.name = name) :
    findXattr (replaceXattr cat ino name newE) ino name = some newE := by
  induction cat with
  | nil => simp [findXattr] at hfind
  | cons c rest ih =>
    rcases hcb : (c.ino == ino && c.name == name) with _ | _
    · have hrep : replaceXattr (c :: rest) ino name newE =
          c :: replaceXattr rest ino name newE := by
        simp [replaceXattr, hcb]
      have hfind2 : findXattr rest ino name = some e0 := by
        simpa [findXattr, List.find?_cons, hcb] using hfind
      rw [hrep]
      simpa [findXattr, List.find?_cons, hcb] using ih hfind2
    · have hrep : replaceXattr (c :: rest) ino name newE = newE :: rest := by
        simp [replaceXattr, hcb]
      rw [hrep]
      simp [findXattr, List.find?_cons, hino, hname]

/-- The commit tail of set, applied to an inline value: once it succeeds,
reading the attribute back returns exactly the stored bytes. -/
theorem set_commit_inline_get (st : FsState) (ino : Nat) (name v : List Nat)
    (old : Option Nat) (found : Bool) (orc : Oracles) (st2 : FsState)
    (capacity : Nat)
    (hname : name.length + 1 < 2 ^ 16) (hv : v.length < 2 ^ 16)
    (hcap : v.length ≤ capacity)
    (hfound : found = true → ∃ e0, findXattr st.catalog ino name = some e0)
    (hcommit : apfs_xattr_set_commit st ino name (some v) none old found orc =
      (.ok (), st2)) :
    ____apfs_xattr_get st2 ino name true capacity true = .ok (v.length, v) := by
  have main : ∀ (f : Nat), f &&& APFS_XATTR_DATA_STREAM = 0 → f < 2 ^ 16 →
      ∀ st2c : FsState,
        st2c.catalog =
          (if found then
            replaceXattr st.catalog ino name
              { ino := ino, name := name, rawKey := apfs_build_xattr_key name ino,
                rawVal := serialize_xattr_val (f, v.length, v) }
          else
            { ino := ino, name := name, rawKey := apfs_build_xattr_key name ino,
              rawVal := serialize_xattr_val (f, v.length, v) } :: st.catalog) →
        ____apfs_xattr_get st2c ino name true capacity true = .ok (v.length, v) := by
    intro f hf1 hf st2c hcat
    have hfind2 : findXattr st2c.catalog ino name = some
        { ino := ino, name := name, rawKey := apfs_build_xattr_key name ino,
          rawVal := serialize_xattr_val (f, v.length, v) } := by
      rw [hcat]
      rcases found with _ | _
      · simp [findXattr, List.find?_cons]
      · obtain ⟨e0, he0⟩ := hfound rfl
        exact findXattr_replace st.catalog ino name _ e0 he0 rfl rfl
    simp only [____apfs_xattr_get, hfind2]
    rw [decode_built_inline ino name v f hf1 hf hname hv]
    simp only [apfs_xattr_read]
    rw [if_neg (by simp)]
    simp only [apfs_xattr_inline_read]
    rw [if_neg (by simp)]
    rw [if_neg (fun hcc => by omega)]
    rw [if_neg (by simp)]
    simp [List.take_length]
  simp only [apfs_xattr_set_commit] at hcommit
  rcases hmutB : orc.mutOk with _ | _
  · rw [if_pos (by simp [hmutB])] at hcommit
    simp at hcommit
  · rw [if_neg (by simp [hmutB])] at hcommit
    by_cases hsym : name = apfs_symlink_name
    · rw [if_pos hsym] at hcommit
      rcases old with _ | oid <;> simp only [Prod.mk.injEq] at hcommit
      · refine main (APFS_XATTR_DATA_EMBEDDED ||| APFS_XATTR_FILE_SYSTEM_OWNED)
          (by decide) (by decide) st2 ?_
        rw [← hcommit.2]
        simp [apfs_build_inline_xattr_val]
      · refine main (APFS_XATTR_DATA_EMBEDDED ||| APFS_XATTR_FILE_SYSTEM_OWNED)
          (by decide) (by decide) st2 ?_
        rw [← hcommit.2]
        simp [apfs_truncate_zero, apfs_build_inline_xattr_val]
    · rw [if_neg hsym] at hcommit
      rcases old with _ | oid <;> simp only [Prod.mk.injEq] at hcommit
      · refine main APFS_XATTR_DATA_EMBEDDED (by decide) (by decide) st2 ?_
        rw [← hcommit.2]
        simp [apfs_build_inline_xattr_val]
      · refine main APFS_XATTR_DATA_EMBEDDED (by decide) (by decide) st2 ?_
        rw [← hcommit.2]
        simp [apfs_truncate_zero, apfs_build_inline_xattr_val]

/-- C1: for every owner, name and value no longer than the inline embedding
threshold, a successful set followed by a whole get with sufficient capacity
returns exactly the bytes of the value.  The name bound mirrors the u16
name-length field of the on-disk key. -/
theorem xattr_set_get_roundtrip (st : FsState) (ino : Nat) (name v : List Nat)
    (flags : Nat) (orc : Oracles) (st2 : FsState) (capacity : Nat)
    (hname : name.length + 1 < 2 ^ 16)
    (hsize : v.length ≤ APFS_XATTR_MAX_EMBEDDED_SIZE)
    (hcap : v.length ≤ capacity)
    (hset : apfs_xattr_set st ino name (some v) flags orc = (.ok (), st2)) :
    ____apfs_xattr_get st2 ino name true capacity true = .ok (v.length, v) := by
  have hvlt : v.length < 2 ^ 16 := by
    simp only [APFS_XATTR_MAX_EMBEDDED_SIZE] at hsize
    omega
  simp only [apfs_xattr_set] at hset
  rw [if_neg (by simp only [APFS_XATTR_MAX_EMBEDDED_SIZE] at hsize ⊢; omega)] at hset
  simp only [] at hset
  rcases hf : findXattr st.catalog ino name with _ | e
  · rw [hf] at hset
    simp only [] at hset
    split_ifs at hset with hrep
    · simp at hset
    · exact set_commit_inline_get st ino name v none false orc st2 capacity hname hvlt
        hcap (by simp) hset
  · rw [hf] at hset
    simp only [] at hset
    split_ifs at hset with hcre
    · simp at hset
    · rcases hde : apfs_xattr_from_query e.rawKey e.rawVal with er | x
      · rw [hde] at hset
        simp at hset
      · rw [hde] at hset
        simp only [] at hset
        exact set_commit_inline_get st ino name v _ true orc st2 capacity hname hvlt
          hcap (fun _ => ⟨e, hf⟩) hset

/-- Witness for C1: storing a two-byte value under owner 1 in the empty
state and reading it back with capacity two returns those two bytes. -/
theorem xattr_set_get_roundtrip_witness :
    ____apfs_xattr_get (apfs_xattr_set demoEmpty 1 [97] (some [5, 6]) 0 demoOrc).2
      1 [97] true 2 true = .ok (2, [5, 6]) :=
  xattr_set_get_roundtrip demoEmpty 1 [97] [5, 6] 0 demoOrc
    (apfs_xattr_set demoEmpty 1 [97] (some [5, 6]) 0 demoOrc).2 2
    (by decide) (by decide) (by decide) rfl

/-- State effects of the create block loop: the catalog, block size and
object-id counter are untouched, the allocator watermark only grows, extent
mappings of other streams are preserved, and blocks below the initial
watermark keep their contents. -/
theorem create_dstream_loop_effects (orc : Oracles) (id : Nat) (value : List Nat) :
    ∀ (n i acc : Nat) (st : FsState),
      ((apfs_create_dstream_loop orc id value n i acc st).2.catalog = st.catalog) ∧
      ((apfs_create_dstream_loop orc id value n i acc st).2.bs = st.bs) ∧
      ((apfs_create_dstream_loop orc id value n i acc st).2.nextObjId = st.nextObjId) ∧
      (st.nextBno ≤ (apfs_create_dstream_loop orc id value n i acc st).2.nextBno) ∧
      (∀ id2 i2, id2 ≠ id →
        (apfs_create_dstream_loop orc id value n i acc st).2.extents id2 i2 =
          st.extents id2 i2) ∧
      (∀ b, b < st.nextBno →
        (apfs_create_dstream_loop orc id value n i acc st).2.disk b = st.disk b) := by
  intro n
  induction n with
  | zero =>
    intro i acc st
    exact ⟨rfl, rfl, rfl, Nat.le_refl _, fun _ _ _ => rfl, fun _ _ => rfl⟩
  | succ n ih =>
    intro i acc st
    simp only [apfs_create_dstream_loop]
    by_cases h1 : orc.allocOk i = true
    · rw [if_neg (fun hc => hc h1)]
      by_cases h2 : orc.breadOk i = true
      · rw [if_neg (fun hc => hc h2)]
        by_cases h3 : orc.joinOk i = true
        · rw [if_neg (fun hc => hc h3)]
          obtain ⟨e1, e2, e3, e4, e5, e6⟩ := ih (i + 1)
            (acc + min st.bs (value.length - i * st.bs))
            { st with
              nextBno := st.nextBno + 1
              extents := fun id2 i2 =>
                if id2 = id ∧ i2 = i then some st.nextBno else st.extents id2 i2
              disk := fun b =>
                if b = st.nextBno then
                  some ((value.drop (i * st.bs)).take (min st.bs (value.length - i * st.bs)) ++
                    List.replicate (st.bs - min st.bs (value.length - i * st.bs)) 0)
                else st.disk b }
          refine ⟨e1, e2, e3, le_trans (Nat.le_succ _) e4, ?_, ?_⟩
          · intro id2 i2 hne
            rw [e5 id2 i2 hne]
            dsimp only
            rw [if_neg (fun hc => hne hc.1)]
          · intro b hblt
            rw [e6 b (Nat.lt_succ_of_lt hblt)]
            dsimp only
            rw [if_neg (by omega)]
        · rw [if_pos h3]
          refine ⟨rfl, rfl, rfl, Nat.le_succ _, ?_, fun _ _ => rfl⟩
          intro id2 i2 hne
          dsimp only
          rw [if_neg (fun hc => hne hc.1)]
      · rw [if_pos h2]
        refine ⟨rfl, rfl, rfl, Nat.le_succ _, ?_, fun _ _ => rfl⟩
        intro id2 i2 hne
        dsimp only
        rw [if_neg (fun hc => hne hc.1)]
    · rw [if_pos h1]
      exact ⟨rfl, rfl, rfl, Nat.le_refl _, fun _ _ _ => rfl, fun _ _ => rfl⟩

/-- Under failure-free oracles the create block loop succeeds. -/
theorem create_dstream_loop_ok (orc : Oracles) (id : Nat) (value : List Nat)
    (ha : ∀ i, orc.allocOk i = true) (hb : ∀ i, orc.breadOk i = true)
    (hj : ∀ i, orc.joinOk i = true) :
    ∀ (n i acc : Nat) (st : FsState), ∃ acc2,
      (apfs_create_dstream_loop orc id value n i acc st).1 = .ok acc2 := by
  intro n
  induction n with
  | zero => exact fun i acc st => ⟨acc, rfl⟩
  | succ n ih =>
    intro i acc st
    simp only [apfs_create_dstream_loop]
    rw [if_neg (fun hc => hc (ha i)), if_neg (fun hc => hc (hb i)),
      if_neg (fun hc => hc (hj i))]
    exact ih (i + 1) _ _

/-- State effects of apfs_create_xattr_dstream, whichever way it exits. -/
theorem create_xattr_dstream_effects (st : FsState) (value : List Nat) (orc : Oracles) :
    ((apfs_create_xattr_dstream st value orc).2.catalog = st.catalog) ∧
    ((apfs_create_xattr_dstream st value orc).2.bs = st.bs) ∧
    (∀ id2 i2, id2 ≠ st.nextObjId →
      (apfs_create_xattr_dstream st value orc).2.extents id2 i2 = st.extents id2 i2) ∧
    (∀ b, b < st.nextBno →
      (apfs_create_xattr_dstream st value orc).2.disk b = st.disk b) := by
  obtain ⟨e1, e2, e3, e4, e5, e6⟩ := create_dstream_loop_effects orc st.nextObjId value
    ((value.length + st.bs - 1) / st.bs) 0 0 { st with nextObjId := st.nextObjId + 1 }
  simp only [apfs_create_xattr_dstream]
  rcases hr : apfs_create_dstream_loop orc st.nextObjId value
      ((value.length + st.bs - 1) / st.bs) 0 0
      { st with nextObjId := st.nextObjId + 1 } with ⟨r, st2⟩
  rw [hr] at e1 e2 e5 e6
  rcases r with er | acc
  · exact ⟨e1, e2, e5, e6⟩
  · dsimp only
    split_ifs with hc
    · exact ⟨e1, e2, e5, e6⟩
    · exact ⟨e1, e2, e5, e6⟩

/-- Under failure-free oracles apfs_create_xattr_dstream succeeds. -/
theorem create_xattr_dstream_ok (st : FsState) (value : List Nat) (orc : Oracles)
    (ha : ∀ i, orc.allocOk i = true) (hb : ∀ i, orc.breadOk i = true)
    (hj : ∀ i, orc.joinOk i = true) (hfl : orc.flushOk = true) :
    ∃ ds, (apfs_create_xattr_dstream st value orc).1 = .ok ds := by
  obtain ⟨acc2, hacc⟩ := create_dstream_loop_ok orc st.nextObjId value ha hb hj
    ((value.length + st.bs - 1) / st.bs) 0 0 { st with nextObjId := st.nextObjId + 1 }
  simp only [apfs_create_xattr_dstream]
  rcases hr : apfs_create_dstream_loop orc st.nextObjId value
      ((value.length + st.bs - 1) / st.bs) 0 0
      { st with nextObjId := st.nextObjId + 1 } with ⟨r, st2⟩
  rw [hr] at hacc
  rcases r with er | acc
  · exact absurd hacc (by simp)
  · dsimp only
    rw [if_neg (fun hc => hc hfl)]
    exact ⟨_, rfl⟩

/-- The block loop of a read is insensitive to state changes that keep the
extent mappings of the stream and the contents of the mapped blocks. -/
theorem read_blocks_congr (st st2 : FsState) (dsId : Nat)
    (hext : ∀ i, st2.extents dsId i = st.extents dsId i)
    (hdisk : ∀ i b, st.extents dsId i = some b → st2.disk b = st.disk b) :
    ∀ (cnt i : Nat), apfs_read_blocks st2 dsId i cnt = apfs_read_blocks st dsId i cnt := by
  intro cnt
  induction cnt with
  | zero => intro i; rfl
  | succ n ih =>
    intro i
    simp only [apfs_read_blocks, hext i]
    rcases he : st.extents dsId i with _ | bno
    · rfl
    · by_cases hb0 : bno = 0
      · simp [hb0]
      · simp only [if_neg hb0, hdisk i bno he]
        rcases st.disk bno with _ | blk
        · rfl
        · rw [ih]

/-- The extent reader is insensitive to state changes that keep the block
size, the extent mappings of the stream and the mapped block contents. -/
theorem extents_read_congr (st st2 : FsState) (x : Xattr) (buffer : Bool)
    (size : Nat) (ow : Bool)
    (hbs : st2.bs = st.bs)
    (hext : ∀ i, st2.extents (apfs_dstream_from_xattr x).ds_id i =
      st.extents (apfs_dstream_from_xattr x).ds_id i)
    (hdisk : ∀ i b, st.extents (apfs_dstream_from_xattr x).ds_id i = some b →
      st2.disk b = st.disk b) :
    apfs_xattr_extents_read st2 x buffer size ow =
      apfs_xattr_extents_read st x buffer size ow := by
  simp only [apfs_xattr_extents_read, hbs, read_blocks_congr st st2 _ hext hdisk]

/-- A whole get is insensitive to state changes that keep the catalog, the
block size, and the stream data reachable from the queried record. -/
theorem xattr_get_congr (st st2 : FsState) (ino : Nat) (name : List Nat)
    (hcat : st2.catalog = st.catalog)
    (hbs : st2.bs = st.bs)
    (hpres : ∀ e, findXattr st.catalog ino name = some e →
      ∀ x, apfs_xattr_from_query e.rawKey e.rawVal = .ok x → x.has_dstream = true →
        (∀ i, st2.extents (apfs_dstream_from_xattr x).ds_id i =
          st.extents (apfs_dstream_from_xattr x).ds_id i) ∧
        (∀ i b, st.extents (apfs_dstream_from_xattr x).ds_id i = some b →
          st2.disk b = st.disk b)) :
    ∀ buffer size, ____apfs_xattr_get st2 ino name buffer size true =
      ____apfs_xattr_get st ino name buffer size true := by
  intro buffer size
  simp only [____apfs_xattr_get, hcat]
  rcases hf : findXattr st.catalog ino name with _ | e
  · simp only [hf]
  · simp only [hf]
    rcases hd : apfs_xattr_from_query e.rawKey e.rawVal with er | x
    · simp only [hd]
    · simp only [hd]
      simp only [apfs_xattr_read]
      rcases hds : x.has_dstream with _ | _
      · simp [hds]
      · simp only [hds, if_true]
        obtain ⟨he, hd2⟩ := hpres e hf x hd hds
        exact extents_read_congr st st2 x buffer size true hbs he hd2

/-- C6: under failure-free collaborators, set with the create-only flag on an
existing key fails as already-exists and leaves the prior value readable
unchanged, and set with the replace-only flag on a missing key fails as
not-found and creates no record.  The well-formedness hypothesis says the
stream id of the existing record is not the next fresh object id and its blocks
sit below the allocator watermark. -/
theorem xattr_set_flag_errors (st : FsState) (ino : Nat) (name : List Nat)
    (value : Option (List Nat)) (flags : Nat) (orc : Oracles)
    (ha : ∀ i, orc.allocOk i = true) (hb : ∀ i, orc.breadOk i = true)
    (hj : ∀ i, orc.joinOk i = true) (hfl : orc.flushOk = true)
    (hwf : ∀ e, findXattr st.catalog ino name = some e →
      ∀ x, apfs_xattr_from_query e.rawKey e.rawVal = .ok x → x.has_dstream = true →
        (apfs_dstream_from_xattr x).ds_id ≠ st.nextObjId ∧
        (∀ i bno, st.extents (apfs_dstream_from_xattr x).ds_id i = some bno →
          bno < st.nextBno)) :
    (findXattr st.catalog ino name = none → flags &&& XATTR_REPLACE ≠ 0 →
      (apfs_xattr_set st ino name value flags orc).1 = .error .ENODATA ∧
      (apfs_xattr_set st ino name value flags orc).2.catalog = st.catalog) ∧
    (∀ e, findXattr st.catalog ino name = some e → flags &&& XATTR_CREATE ≠ 0 →
      (apfs_xattr_set st ino name value flags orc).1 = .error .EEXIST ∧
      ∀ buffer size,
        ____apfs_xattr_get (apfs_xattr_set st ino name value flags orc).2
            ino name buffer size true =
          ____apfs_xattr_get st ino name buffer size true) := by
  have hred : ∃ (dstream : Option DstreamInfo) (st1 : FsState),
      st1.catalog = st.catalog ∧ st1.bs = st.bs ∧
      (∀ id2 i2, id2 ≠ st.nextObjId → st1.extents id2 i2 = st.extents id2 i2) ∧
      (∀ b, b < st.nextBno → st1.disk b = st.disk b) ∧
      apfs_xattr_set st ino name value flags orc =
        (match findXattr st1.catalog ino name with
          | none =>
            if flags &&& XATTR_REPLACE ≠ 0 then (.error .ENODATA, st1)
            else apfs_xattr_set_commit st1 ino name value dstream none false orc
          | some e =>
            if flags &&& XATTR_CREATE ≠ 0 then (.error .EEXIST, st1)
            else match value with
              | none => apfs_delete_xattr st1 e
              | some _ =>
                match apfs_xattr_from_query e.rawKey e.rawVal with
                | .error er => (.error er, st1)
                | .ok x =>
                  apfs_xattr_set_commit st1 ino name value dstream
                    (if x.has_dstream then some (apfs_dstream_from_xattr x).ds_id
                     else none) true orc) := by
    rcases value with _ | v
    · exact ⟨none, st, rfl, rfl, fun _ _ _ => rfl, fun _ _ => rfl, rfl⟩
    · by_cases hlen : v.length > APFS_XATTR_MAX_EMBEDDED_SIZE
      · obtain ⟨ds, hds⟩ := create_xattr_dstream_ok st v orc ha hb hj hfl
        obtain ⟨ec1, ec2, ec3, ec4⟩ := create_xattr_dstream_effects st v orc
        rcases hCr : apfs_create_xattr_dstream st v orc with ⟨r, st1⟩
        rw [hCr] at hds ec1 ec2 ec3 ec4
        simp only at hds ec1 ec2 ec3 ec4
        subst hds
        refine ⟨some ds, st1, ec1, ec2, ec3, ec4, ?_⟩
        simp only [apfs_xattr_set]
        rw [if_pos hlen]
        simp only [hCr]
      · refine ⟨none, st, rfl, rfl, fun _ _ _ => rfl, fun _ _ => rfl, ?_⟩
        simp only [apfs_xattr_set]
        rw [if_neg hlen]
  obtain ⟨dstream, st1, hc1, hc2, hc3, hc4, heq⟩ := hred
  constructor
  · intro hf hflag
    rw [heq]
    simp only [hc1, hf]
    rw [if_pos hflag]
    exact ⟨rfl, hc1⟩
  · intro e hf hflag
    rw [heq]
    simp only [hc1, hf]
    rw [if_pos hflag]
    refine ⟨rfl, ?_⟩
    intro buffer size
    refine xattr_get_congr st st1 ino name hc1 hc2 ?_ buffer size
    intro e2 hfe2 x hx hxd
    rw [hf] at hfe2
    cases hfe2
    obtain ⟨hidne, hbno⟩ := hwf e hf x hx hxd
    exact ⟨fun i => hc3 _ i hidne, fun i b hib => hc4 b (hbno i b hib)⟩

/-- Witness for C6: a create-only set on the existing inline attribute of
demoInlineState fails as already-exists and a subsequent whole get is
unchanged. -/
theorem xattr_set_flag_errors_witness :
    (apfs_xattr_set demoInlineState 1 [97] (some [9]) 1 demoOrc).1 = .error .EEXIST ∧
    ____apfs_xattr_get (apfs_xattr_set demoInlineState 1 [97] (some [9]) 1 demoOrc).2
        1 [97] true 3 true =
      ____apfs_xattr_get demoInlineState 1 [97] true 3 true := by
  have h := (xattr_set_flag_errors demoInlineState 1 [97] (some [9]) 1 demoOrc
    (fun _ => rfl) (fun _ => rfl) (fun _ => rfl) rfl
    (by
      intro e he x hx hxd
      rw [show findXattr demoInlineState.catalog 1 [97] =
        some (Entry.mk 1 [97] demoKey demoInlineVal) from by decide] at he
      cases he
      rw [show apfs_xattr_from_query demoKey demoInlineVal =
        .ok ⟨false, [97, 0], 1, [1, 2, 3], 3⟩ from by decide] at hx
      cases hx
      exact absurd hxd (by decide))).2
    (Entry.mk 1 [97] demoKey demoInlineVal) (by decide) (by decide)
  exact ⟨h.1, h.2 true 3⟩

/-- C3: when a set replaces an existing stream-backed value, the old stream
is truncated to zero only after the catalog insert or replace has succeeded.
If the mutation fails, the whole call fails and the extents of the old stream are
untouched; if the call succeeds, the old stream has been truncated. -/
theorem xattr_set_truncates_old_after_mutation (st : FsState) (ino : Nat)
    (name v : List Nat) (flags : Nat) (orc : Oracles) (e : Entry) (x : Xattr)
    (hf : findXattr st.catalog ino name = some e)
    (hde : apfs_xattr_from_query e.rawKey e.rawVal = .ok x)
    (hds : x.has_dstream = true)
    (hnc : flags &&& XATTR_CREATE = 0)
    (hoid : (apfs_dstream_from_xattr x).ds_id ≠ st.nextObjId) :
    (orc.mutOk = false →
      (∃ er, (apfs_xattr_set st ino name (some v) flags orc).1 = .error er) ∧
      (∀ i, (apfs_xattr_set st ino name (some v) flags orc).2.extents
          (apfs_dstream_from_xattr x).ds_id i =
        st.extents (apfs_dstream_from_xattr x).ds_id i)) ∧
    ((apfs_xattr_set st ino name (some v) flags orc).1 = .ok () →
      ∀ i, (apfs_xattr_set st ino name (some v) flags orc).2.extents
          (apfs_dstream_from_xattr x).ds_id i = none) := by
  have tail : ∀ (dstream : Option DstreamInfo) (st1 : FsState),
      st1.catalog = st.catalog →
      (∀ i2, st1.extents (apfs_dstream_from_xattr x).ds_id i2 =
        st.extents (apfs_dstream_from_xattr x).ds_id i2) →
      apfs_xattr_set st ino name (some v) flags orc =
        (match findXattr st1.catalog ino name with
          | none =>
            if flags &&& XATTR_REPLACE ≠ 0 then (.error .ENODATA, st1)
            else apfs_xattr_set_commit st1 ino name (some v) dstream none false orc
          | some e2 =>
            if flags &&& XATTR_CREATE ≠ 0 then (.error .EEXIST, st1)
            else
              match apfs_xattr_from_query e2.rawKey e2.rawVal with
              | .error er => (.error er, st1)
              | .ok x2 =>
                apfs_xattr_set_commit st1 ino name (some v) dstream
                  (if x2.has_dstream then some (apfs_dstream_from_xattr x2).ds_id
                   else none) true orc) →
      (orc.mutOk = false →
        (∃ er, (apfs_xattr_set st ino name (some v) flags orc).1 = .error er) ∧
        (∀ i, (apfs_xattr_set st ino name (some v) flags orc).2.extents
            (apfs_dstream_from_xattr x).ds_id i =
          st.extents (apfs_dstream_from_xattr x).ds_id i)) ∧
      ((apfs_xattr_set st ino name (some v) flags orc).1 = .ok () →
        ∀ i, (apfs_xattr_set st ino name (some v) flags orc).2.extents
            (apfs_dstream_from_xattr x).ds_id i = none) := by
    intro dstream st1 hcat hpres heq
    rw [hcat] at heq
    simp only [hf] at heq
    rw [if_neg (by simp [hnc])] at heq
    simp only [hde] at heq
    rw [if_pos hds] at heq
    simp only [apfs_xattr_set_commit] at heq
    rcases hmutB : orc.mutOk with _ | _
    · rw [if_pos (by simp [hmutB])] at heq
      constructor
      · intro _
        exact ⟨⟨.EIOERR, by rw [heq]⟩, fun i => by rw [heq]; exact hpres i⟩
      · intro hok
        rw [heq] at hok
        simp at hok
    · rw [if_neg (by simp [hmutB])] at heq
      constructor
      · intro hmf
        exact absurd hmf (by simp)
      · intro _ i
        rw [heq]
        simp [apfs_truncate_zero]
  by_cases hlen : v.length > APFS_XATTR_MAX_EMBEDDED_SIZE
  · rcases hCr : apfs_create_xattr_dstream st v orc with ⟨r, st1⟩
    obtain ⟨ec1, ec2, ec3, ec4⟩ := create_xattr_dstream_effects st v orc
    rw [hCr] at ec1 ec2 ec3 ec4
    rcases r with er | ds
    · have heq : apfs_xattr_set st ino name (some v) flags orc = (.error er, st1) := by
        simp only [apfs_xattr_set]
        rw [if_pos hlen]
        simp only [hCr]
      constructor
      · intro _
        exact ⟨⟨er, by rw [heq]⟩, fun i => by rw [heq]; exact ec3 _ i hoid⟩
      · intro hok
        rw [heq] at hok
        simp at hok
    · refine tail (some ds) st1 ec1 (fun i2 => ec3 _ i2 hoid) ?_
      simp only [apfs_xattr_set]
      rw [if_pos hlen]
      simp only [hCr]
  · refine tail none st rfl (fun _ => rfl) ?_
    simp only [apfs_xattr_set]
    rw [if_neg hlen]

/-- Witness for C3 on the stream-backed attribute of demoStreamState: with a
failing catalog mutation the first block mapping of the old stream survives, and
with a successful one it is truncated away. -/
theorem xattr_set_truncates_old_after_mutation_witness :
    (apfs_xattr_set demoStreamState 1 [97] (some [9]) 0 demoMutFailOrc).2.extents 7 0 =
      demoStreamState.extents 7 0 ∧
    (apfs_xattr_set demoStreamState 1 [97] (some [9]) 0 demoOrc).2.extents 7 0 = none := by
  have h1 := (xattr_set_truncates_old_after_mutation demoStreamState 1 [97] [9] 0
    demoMutFailOrc (Entry.mk 1 [97] demoKey demoStreamVal) demoStreamXattr
    (by decide) (by decide) (by decide) (by decide) (by decide)).1 rfl
  have h2 := (xattr_set_truncates_old_after_mutation demoStreamState 1 [97] [9] 0
    demoOrc (Entry.mk 1 [97] demoKey demoStreamVal) demoStreamXattr
    (by decide) (by decide) (by decide) (by decide) (by decide)).2 rfl
  exact ⟨h1.2 0, h2 0⟩

/-- One unfolding step of the delete-all loop, for each outcome of the
single deletion. -/
theorem delete_all_step (st : FsState) (ino : Nat) :
    (∀ st1, apfs_delete_any_xattr st ino = (.ok false, st1) →
      apfs_delete_all_xattrs st ino = (.ok (), st1)) ∧
    (∀ st1, apfs_delete_any_xattr st ino = (.ok true, st1) →
      apfs_delete_all_xattrs st ino = apfs_delete_all_xattrs st1 ino) ∧
    (∀ er st1, apfs_delete_any_xattr st ino = (.error er, st1) →
      apfs_delete_all_xattrs st ino = (.error er, st1)) := by
  refine ⟨?_, ?_, ?_⟩
  · intro st1 hda
    rw [apfs_delete_all_xattrs.eq_def]
    split
    · next heq =>
      rw [hda] at heq
      simp at heq
    · next heq =>
      rw [hda] at heq
      simp only [Prod.mk.injEq] at heq
      rw [heq.2]
    · next heq =>
      rw [hda] at heq
      simp at heq
  · intro st1 hda
    rw [apfs_delete_all_xattrs.eq_def]
    split
    · next heq =>
      rw [hda] at heq
      simp at heq
    · next heq =>
      rw [hda] at heq
      simp at heq
    · next heq =>
      rw [hda] at heq
      simp only [Prod.mk.injEq] at heq
      rw [heq.2]
  · intro er st1 hda
    rw [apfs_delete_all_xattrs.eq_def]
    split
    · next heq =>
      rw [hda] at heq
      simp only [Prod.mk.injEq, Except.error.injEq] at heq
      rw [heq.1, heq.2]
    · next heq =>
      rw [hda] at heq
      simp at heq
    · next heq =>
      rw [hda] at heq
      simp at heq

/-- A successful single deletion that reports more work has removed one
catalog entry, and every remaining entry was already present. -/
theorem delete_any_true_shrinks (st : FsState) (ino : Nat) (st1 : FsState)
    (h : apfs_delete_any_xattr st ino = (.ok true, st1)) :
    st1.catalog.length < st.catalog.length ∧
    (∀ e2 ∈ st1.catalog, e2 ∈ st.catalog) := by
  simp only [apfs_delete_any_xattr] at h
  rcases hf : st.catalog.find? (fun e => e.ino == ino) with _ | e
  · rw [hf] at h
    simp at h
  · rw [hf] at h
    have hmem := List.mem_of_find?_eq_some hf
    simp only [apfs_delete_xattr] at h
    rcases hd : apfs_xattr_from_query e.rawKey e.rawVal with er | x
    · rw [hd] at h
      simp [Except.map] at h
    · rw [hd] at h
      simp only [Prod.mk.injEq] at h
      have hcateq : st1.catalog =
          st.catalog.eraseP (fun e2 => e2.ino == e.ino && e2.name == e.name) := by
        rw [← h.2]
        split
        · simp [apfs_truncate_zero]
        · rfl
      constructor
      · rw [hcateq]
        have := List.length_eraseP_add_one
          (p := fun e2 : Entry => e2.ino == e.ino && e2.name == e.name) hmem (by simp)
        omega
      · intro e2 he2
        rw [hcateq] at he2
        exact (List.eraseP_sublist _).subset he2

/-- A single deletion that reports completion leaves the state unchanged and
certifies that no record of the owner remains. -/
theorem delete_any_false_no_match (st : FsState) (ino : Nat) (st1 : FsState)
    (h : apfs_delete_any_xattr st ino = (.ok false, st1)) :
    st1 = st ∧ ∀ e ∈ st.catalog, e.ino ≠ ino := by
  simp only [apfs_delete_any_xattr] at h
  rcases hf : st.catalog.find? (fun e => e.ino == ino) with _ | e
  · rw [hf] at h
    simp only [Prod.mk.injEq] at h
    refine ⟨h.2.symm, ?_⟩
    intro e he hino
    have := List.find?_eq_none.mp hf e he
    simp [hino] at this
  · rw [hf] at h
    simp only [apfs_delete_xattr] at h
    rcases hd : apfs_xattr_from_query e.rawKey e.rawVal with er | x
    · rw [hd] at h
      simp [Except.map] at h
    · rw [hd] at h
      simp [Except.map] at h

/-- Listing an owner with no remaining records, with no buffer and size
zero, returns zero. -/
theorem listxattr_empty (st : FsState) (ino : Nat)
    (h : ∀ e ∈ st.catalog, e.ino ≠ ino) :
    apfs_listxattr st ino false 0 = (.ok 0, []) := by
  have hfil : st.catalog.filter (fun e => e.ino == ino) = [] :=
    List.filter_eq_nil_iff.mpr (fun e he => by simpa using h e he)
  simp [apfs_listxattr, hfil, apfs_listxattr_loop, ssize_of_size, Except.map]
  norm_num

/-- Bounded-induction core of C8: with every record of the owner decodable,
the delete-all loop terminates successfully and no record of the owner
remains. -/
theorem delete_all_clears (ino : Nat) :
    ∀ (n : Nat) (st : FsState), st.catalog.length ≤ n →
      (∀ e ∈ st.catalog, e.ino = ino →
        ∃ x, apfs_xattr_from_query e.rawKey e.rawVal = .ok x) →
      (apfs_delete_all_xattrs st ino).1 = .ok () ∧
      ∀ e ∈ (apfs_delete_all_xattrs st ino).2.catalog, e.ino ≠ ino := by
  intro n
  induction n with
  | zero =>
    intro st hlen hdec
    have hnil : st.catalog = [] := List.length_eq_zero.mp (Nat.le_zero.mp hlen)
    have hda : apfs_delete_any_xattr st ino = (.ok false, st) := by
      simp [apfs_delete_any_xattr, hnil]
    rw [(delete_all_step st ino).1 st hda]
    refine ⟨rfl, ?_⟩
    intro e he
    rw [hnil] at he
    simp at he
  | succ n ih =>
    intro st hlen hdec
    rcases hda : apfs_delete_any_xattr st ino with ⟨r, st1⟩
    rcases r with er | b
    · exfalso
      simp only [apfs_delete_any_xattr] at hda
      rcases hf : st.catalog.find? (fun e => e.ino == ino) with _ | e
      · rw [hf] at hda
        simp at hda
      · rw [hf] at hda
        have hmem := List.mem_of_find?_eq_some hf
        have hino : e.ino = ino := by simpa using List.find?_some hf
        obtain ⟨x, hx⟩ := hdec e hmem hino
        simp only [apfs_delete_xattr] at hda
        rw [hx] at hda
        simp [Except.map] at hda
    · rcases b with _ | _
      · obtain ⟨hst, hnone⟩ := delete_any_false_no_match st ino st1 hda
        rw [(delete_all_step st ino).1 st1 hda]
        subst hst
        exact ⟨rfl, hnone⟩
      · obtain ⟨hlt, hsub⟩ := delete_any_true_shrinks st ino st1 hda
        rw [(delete_all_step st ino).2.1 st1 hda]
        exact ih st1 (by omega) (fun e he hino => hdec e (hsub e he) hino)

/-- C8: deleteAll repeats the any-name lookup and single deletion until the
lookup reports no match and then returns success; afterwards no record of
the owner remains, so a buffer-less list of the owner returns length
zero. -/
theorem apfs_delete_all_xattrs_clears (st : FsState) (ino : Nat)
    (hdec : ∀ e ∈ st.catalog, e.ino = ino →
      ∃ x, apfs_xattr_from_query e.rawKey e.rawVal = .ok x) :
    (apfs_delete_all_xattrs st ino).1 = .ok () ∧
    (∀ e ∈ (apfs_delete_all_xattrs st ino).2.catalog, e.ino ≠ ino) ∧
    apfs_listxattr (apfs_delete_all_xattrs st ino).2 ino false 0 = (.ok 0, []) := by
  obtain ⟨h1, h2⟩ := delete_all_clears ino st.catalog.length st (Nat.le_refl _) hdec
  exact ⟨h1, h2, listxattr_empty _ ino h2⟩

/-- Witness for C8: deleting all attributes of owner 1 in demoMultiState
succeeds and a subsequent buffer-less list of owner 1 returns zero. -/
theorem apfs_delete_all_xattrs_clears_witness :
    (apfs_delete_all_xattrs demoMultiState 1).1 = .ok () ∧
    apfs_listxattr (apfs_delete_all_xattrs demoMultiState 1).2 1 false 0 =
      (.ok 0, []) := by
  have h := apfs_delete_all_xattrs_clears demoMultiState 1 (by
    intro e he hino
    simp only [demoMultiState, List.mem_cons, List.not_mem_nil, or_false] at he
    rcases he with rfl | rfl | rfl
    · exact ⟨_, rfl⟩
    · exact ⟨_, rfl⟩
    · exact absurd hino (by decide))
  exact ⟨h.1, h.2.2⟩

/-- Witness for C7: the characterization instantiated on demoMultiState with
a buffer of seven bytes, where the second entry of owner 1 no longer fits. -/
theorem apfs_listxattr_whole_entries_witness :
    ∃ k, k ≤ (demoMultiState.catalog.filter (fun e => e.ino == 1)).length ∧
      (apfs_listxattr demoMultiState 1 true 7).2 =
        (((demoMultiState.catalog.filter (fun e => e.ino == 1)).take k).map
          xattr_entry_bytes).flatten ∧
      ((apfs_listxattr demoMultiState 1 true 7).1 = .error .ERANGE →
        ∃ e x, (demoMultiState.catalog.filter (fun e => e.ino == 1)).get? k = some e ∧
          apfs_xattr_from_query e.rawKey e.rawVal = .ok x ∧
          ((7 : Nat) : Int) -
              (((demoMultiState.catalog.filter (fun e => e.ino == 1)).take k).map
                xattr_entry_need).sum <
            (x.name_len : Int) + (xattr_mac_osx.length : Int) + 1) ∧
      (∀ r, (apfs_listxattr demoMultiState 1 true 7).1 = .ok r →
        k = (demoMultiState.catalog.filter (fun e => e.ino == 1)).length) :=
  apfs_listxattr_whole_entries demoMultiState 1 7

end ApfsXattr
